import Mathlib

/-!
Verification development for the StackAssembly compiler and evaluator
(crates/stack-assembly: `value.rs`, `operand_stack.rs`, `memory.rs`,
`effect.rs`, `eval.rs`, `script.rs`).

The Rust code is shallowly embedded: `Vec<T>` becomes `List T` with the
same end ("top") used for push/pop, machine integers become `Nat`/`Int`
with explicit reductions modulo 2^32, fallible operations return
`Option`, and process aborts (Rust panics) are represented by `none` at
the outermost `Option` layer of the evaluator.  Source strings are
embedded as `List Char`; positions and ranges index characters (the
Rust code indexes bytes; the two coincide on ASCII sources and are
isomorphic unit choices for everything proved here).
-/

namespace StackAssembly

/-- Embeds `Value` (value.rs): a 32-bit word with no intrinsic sign.
The `inner: u32` field is a `Nat` that all constructors keep below 2^32. -/
structure Value where
  inner : Nat
deriving DecidableEq

/-- Embeds `impl From<i32> for Value`: two's-complement bit pattern of `v`. -/
def Value.of_i32 (v : Int) : Value :=
  ⟨(v % 4294967296).toNat⟩

/-- Embeds `impl From<u32> for Value`: the bits themselves. -/
def Value.of_u32 (v : Nat) : Value :=
  ⟨v⟩

/-- Modelled from the spec: the push of a boolean comparison result,
"push `1` (true) or `0` (false)".  The `From<bool>` impl used by
`eval.rs` is not part of the sources under review. -/
def Value.of_bool (b : Bool) : Value :=
  ⟨if b then 1 else 0⟩

/-- Embeds `Value::to_i32`: signed (two's complement) reinterpretation. -/
def Value.to_i32 (v : Value) : Int :=
  if v.inner < 2147483648 then (v.inner : Int) else (v.inner : Int) - 4294967296

/-- Embeds `Value::to_u32`: unsigned reinterpretation (the bits). -/
def Value.to_u32 (v : Value) : Nat :=
  v.inner

/-- Embeds `Value::to_usize`.  The Rust function panics only on targets
whose `usize` is narrower than 32 bits; on the supported 32/64-bit
targets the conversion is the identity, which is what we embed. -/
def Value.to_usize (v : Value) : Nat :=
  v.inner

/-- Modelled from the spec: the boolean interpretation used by
`jump_if`/`call_either`/`assert`, "nonzero = true".  The `Value::to_bool`
method called by `eval.rs` is not part of the sources under review. -/
def Value.to_bool (v : Value) : Bool :=
  v.inner != 0

/-- Embeds `enum Operator` (eval.rs / script.rs).  The Rust `Integer`
variant stores an `i32`; we store its 32-bit pattern as a `Value`. -/
inductive Operator where
  | Identifier (value : String)
  | Integer (value : Value)
  | Reference (name : String)
deriving DecidableEq

/-- Embeds `Operator::integer_u32`: bit reinterpretation of a `u32`. -/
def Operator.integer_u32 (value : Nat) : Operator :=
  .Integer ⟨value⟩

/-- Embeds `struct Label`.  `operator` is `usize` in eval.rs and a `u32`
`OperatorIndex` in script.rs; both are embedded as `Nat`. -/
structure Label where
  name : String
  operator : Nat
deriving DecidableEq

/-- Embeds `enum Effect` (effect.rs). -/
inductive Effect where
  | AssertionFailed
  | DivisionByZero
  | IntegerOverflow
  | InvalidAddress
  | InvalidOperandStackIndex
  | InvalidReference
  | OperandStackUnderflow
  | OutOfOperators
  | Return
  | UnknownIdentifier
  | Yield
deriving DecidableEq

/-- The error effects, as classified by the effect.rs documentation:
every effect except the two regular-termination signals
(`OutOfOperators`, `Return`) and the resumable suspension (`Yield`). -/
def Effect.isError : Effect → Bool
  | .OutOfOperators => false
  | .Return => false
  | .Yield => false
  | _ => true

/-- Embeds `OperandStack` (operand_stack.rs): a `Vec<Value>` whose last
element is the top of the stack. -/
structure OperandStack where
  values : List Value
deriving DecidableEq

/-- Embeds `OperandStack::push`: append at the end (the top). -/
def OperandStack.push (s : OperandStack) (v : Value) : OperandStack :=
  ⟨s.values ++ [v]⟩

/-- Embeds `OperandStack::pop`: remove and return the last element;
`none` embeds the `OperandStackUnderflow` error value. -/
def OperandStack.pop (s : OperandStack) : Option (Value × OperandStack) :=
  match s.values.getLast? with
  | none => none
  | some v => some (v, ⟨s.values.dropLast⟩)

/-- Embeds `Memory` (memory.rs): a fixed-length `Vec<Value>`. -/
structure Memory where
  values : List Value
deriving DecidableEq

/-- Embeds `Memory::read`.  The `u32`-to-`usize` conversion in the Rust
code cannot fail on the supported targets, so only the bounds check
remains. -/
def Memory.read (m : Memory) (address : Nat) : Option Value :=
  m.values[address]?

/-- Embeds `Memory::write`: bounds-checked in-place update. -/
def Memory.write (m : Memory) (address : Nat) (value : Value) : Option Memory :=
  if address < m.values.length then some ⟨m.values.set address value⟩ else none

/-- Embeds `struct Eval` (eval.rs). -/
structure Eval where
  operators : List Operator
  labels : List Label
  next_operator : Nat
  call_stack : List Nat
  effect : Option Effect
  operand_stack : OperandStack
  memory : Memory
deriving DecidableEq

/-- Pops the operand stack of an evaluation state; embeds the
`self.operand_stack.pop()?` pattern of eval.rs (where `none` propagates
as `OperandStackUnderflow` at the use site). -/
def Eval.popV (s : Eval) : Option (Value × Eval) :=
  match s.operand_stack.pop with
  | none => none
  | some (v, st) => some (v, { s with operand_stack := st })

/-- Pushes onto the operand stack of an evaluation state. -/
def Eval.pushV (s : Eval) (v : Value) : Eval :=
  { s with operand_stack := s.operand_stack.push v }

/-- Embeds the recurring eval.rs pattern of the binary operators: pop
`b` (the top), pop `a`, push `f a b`.  Underflow aborts the dispatch
with the pops already performed kept. -/
def binop (f : Value → Value → Value) (s : Eval) : Eval × Option Effect :=
  match s.popV with
  | none => (s, some .OperandStackUnderflow)
  | some (b, s1) =>
    match s1.popV with
    | none => (s1, some .OperandStackUnderflow)
    | some (a, s2) => (s2.pushV (f a b), none)

/-- Embeds the recurring eval.rs pattern of the unary operators. -/
def unop (f : Value → Value) (s : Eval) : Eval × Option Effect :=
  match s.popV with
  | none => (s, some .OperandStackUnderflow)
  | some (a, s1) => (s1.pushV (f a), none)

/-- Embeds `i32::count_ones` on a 32-bit pattern. -/
def count_ones32 (v : Nat) : Nat :=
  ((List.range 32).filter (fun i => v.testBit i)).length

/-- Embeds `i32::leading_zeros` on a 32-bit pattern. -/
def leading_zeros32 (v : Nat) : Nat :=
  ((List.range 32).takeWhile (fun i => !v.testBit (31 - i))).length

/-- Embeds `i32::trailing_zeros` on a 32-bit pattern. -/
def trailing_zeros32 (v : Nat) : Nat :=
  ((List.range 32).takeWhile (fun i => !v.testBit i)).length

/-- Embeds `i32::rotate_left` on a 32-bit pattern. -/
def rotate_left32 (v n : Nat) : Nat :=
  ((v <<< (n % 32)) % 4294967296) ||| (v >>> (32 - n % 32))

/-- Embeds `i32::rotate_right` on a 32-bit pattern. -/
def rotate_right32 (v n : Nat) : Nat :=
  (v >>> (n % 32)) ||| ((v <<< ((32 - n % 32) % 32)) % 4294967296)

/-- Embeds `usize::checked_sub`. -/
def checked_sub (a b : Nat) : Option Nat :=
  if b ≤ a then some (a - b) else none

/-- Embeds `convert_operand_stack_index` (eval.rs): turn an index from
the top into an index from the bottom, detecting the empty stack before
subtracting.  `none` embeds the `InvalidOperandStackIndex` error. -/
def convert_operand_stack_index (operand_stack : OperandStack)
    (index_from_top : Nat) : Option Nat :=
  (checked_sub operand_stack.values.length 1).bind
    (fun index => checked_sub index index_from_top)

/-- Embeds the `Operator::Identifier` arm of `Eval::evaluate_next_operator`
(eval.rs), the long if/else chain over the identifier text.  The state
passed in already has the pre-incremented cursor.  The result is `none`
exactly where the Rust code can abort the process: the unchecked shifts
`a << n` / `a >> n` with a shift amount outside `0..=31` (arithmetic
overflow: a panic under overflow checks, e.g. in the crate's own test
builds), the unreachable element access in `copy`, and the
`Vec::remove` call in `drop`. -/
def evalIdentifier (identifier : String) (s : Eval) : Option (Eval × Option Effect) :=
  if identifier = "*" then
    some (binop (fun a b => Value.of_i32 (a.to_i32 * b.to_i32)) s)
  else if identifier = "+" then
    some (binop (fun a b => Value.of_i32 (a.to_i32 + b.to_i32)) s)
  else if identifier = "-" then
    some (binop (fun a b => Value.of_i32 (a.to_i32 - b.to_i32)) s)
  else if identifier = "/" then
    some (match s.popV with
    | none => (s, some .OperandStackUnderflow)
    | some (b, s1) =>
      match s1.popV with
      | none => (s1, some .OperandStackUnderflow)
      | some (a, s2) =>
        if b.to_i32 = 0 then (s2, some .DivisionByZero)
        else if a.to_i32 = -2147483648 ∧ b.to_i32 = -1 then (s2, some .IntegerOverflow)
        else
          ((s2.pushV (Value.of_i32 (a.to_i32.tdiv b.to_i32))).pushV
            (Value.of_i32 (a.to_i32.tmod b.to_i32)), none))
  else if identifier = "<" then
    some (binop (fun a b => Value.of_bool (decide (a.to_i32 < b.to_i32))) s)
  else if identifier = "<=" then
    some (binop (fun a b => Value.of_bool (decide (a.to_i32 ≤ b.to_i32))) s)
  else if identifier = "=" then
    some (binop (fun a b => Value.of_bool (decide (a.to_i32 = b.to_i32))) s)
  else if identifier = ">" then
    some (binop (fun a b => Value.of_bool (decide (b.to_i32 < a.to_i32))) s)
  else if identifier = ">=" then
    some (binop (fun a b => Value.of_bool (decide (b.to_i32 ≤ a.to_i32))) s)
  else if identifier = "and" then
    some (binop (fun a b => ⟨Nat.land a.inner b.inner⟩) s)
  else if identifier = "or" then
    some (binop (fun a b => ⟨Nat.lor a.inner b.inner⟩) s)
  else if identifier = "xor" then
    some (binop (fun a b => ⟨Nat.xor a.inner b.inner⟩) s)
  else if identifier = "count_ones" then
    some (unop (fun a => Value.of_u32 (count_ones32 a.inner)) s)
  else if identifier = "leading_zeros" then
    some (unop (fun a => Value.of_u32 (leading_zeros32 a.inner)) s)
  else if identifier = "trailing_zeros" then
    some (unop (fun a => Value.of_u32 (trailing_zeros32 a.inner)) s)
  else if identifier = "rotate_left" then
    some (binop (fun a n => ⟨rotate_left32 a.inner n.to_u32⟩) s)
  else if identifier = "rotate_right" then
    some (binop (fun a n => ⟨rotate_right32 a.inner n.to_u32⟩) s)
  else if identifier = "shift_left" then
    (match s.popV with
    | none => some (s, some .OperandStackUnderflow)
    | some (n, s1) =>
      match s1.popV with
      | none => some (s1, some .OperandStackUnderflow)
      | some (a, s2) =>
        if n.inner < 32 then some (s2.pushV ⟨(a.inner <<< n.inner) % 4294967296⟩, none)
        else none)
  else if identifier = "shift_right" then
    (match s.popV with
    | none => some (s, some .OperandStackUnderflow)
    | some (n, s1) =>
      match s1.popV with
      | none => some (s1, some .OperandStackUnderflow)
      | some (a, s2) =>
        if n.inner < 32 then some (s2.pushV (Value.of_i32 (a.to_i32.fdiv (2 ^ n.inner))), none)
        else none)
  else if identifier = "copy" then
    (match s.popV with
    | none => some (s, some .OperandStackUnderflow)
    | some (index_from_top, s1) =>
      match convert_operand_stack_index s1.operand_stack index_from_top.to_usize with
      | none => some (s1, some .InvalidOperandStackIndex)
      | some index_from_bottom =>
        match s1.operand_stack.values[index_from_bottom]? with
        | none => none
        | some value => some (s1.pushV value, none))
  else if identifier = "drop" then
    (match s.popV with
    | none => some (s, some .OperandStackUnderflow)
    | some (index_from_top, s1) =>
      match convert_operand_stack_index s1.operand_stack index_from_top.to_usize with
      | none => some (s1, some .InvalidOperandStackIndex)
      | some index_from_bottom =>
        if index_from_bottom < s1.operand_stack.values.length then
          some ({ s1 with operand_stack := ⟨s1.operand_stack.values.eraseIdx index_from_bottom⟩ }, none)
        else none)
  else if identifier = "jump" then
    (match s.popV with
    | none => some (s, some .OperandStackUnderflow)
    | some (index, s1) => some ({ s1 with next_operator := index.to_usize }, none))
  else if identifier = "jump_if" then
    (match s.popV with
    | none => some (s, some .OperandStackUnderflow)
    | some (index, s1) =>
      match s1.popV with
      | none => some (s1, some .OperandStackUnderflow)
      | some (condition, s2) =>
        if condition.to_bool then some ({ s2 with next_operator := index.to_usize }, none)
        else some (s2, none))
  else if identifier = "call" then
    (match Eval.popV { s with call_stack := s.call_stack ++ [s.next_operator] } with
    | none =>
      some ({ s with call_stack := s.call_stack ++ [s.next_operator] },
        some .OperandStackUnderflow)
    | some (index, s1) => some ({ s1 with next_operator := index.to_usize }, none))
  else if identifier = "call_either" then
    (match Eval.popV { s with call_stack := s.call_stack ++ [s.next_operator] } with
    | none =>
      some ({ s with call_stack := s.call_stack ++ [s.next_operator] },
        some .OperandStackUnderflow)
    | some (else_, s1) =>
      match s1.popV with
      | none => some (s1, some .OperandStackUnderflow)
      | some (then_, s2) =>
        match s2.popV with
        | none => some (s2, some .OperandStackUnderflow)
        | some (condition, s3) =>
          some ({ s3 with
            next_operator := if condition.to_bool then then_.to_usize else else_.to_usize },
            none))
  else if identifier = "return" then
    (match s.call_stack.getLast? with
    | none => some (s, some .Return)
    | some index =>
      some ({ s with call_stack := s.call_stack.dropLast, next_operator := index }, none))
  else if identifier = "assert" then
    (match s.popV with
    | none => some (s, some .OperandStackUnderflow)
    | some (condition, s1) =>
      if condition.to_bool then some (s1, none) else some (s1, some .AssertionFailed))
  else if identifier = "yield" then
    some (s, some .Yield)
  else if identifier = "read" then
    (match s.popV with
    | none => some (s, some .OperandStackUnderflow)
    | some (address, s1) =>
      match s1.memory.values[address.to_usize]? with
      | none => some (s1, some .InvalidAddress)
      | some value => some (s1.pushV value, none))
  else if identifier = "write" then
    (match s.popV with
    | none => some (s, some .OperandStackUnderflow)
    | some (value, s1) =>
      match s1.popV with
      | none => some (s1, some .OperandStackUnderflow)
      | some (address, s2) =>
        if address.to_usize < s2.memory.values.length then
          some ({ s2 with memory := ⟨s2.memory.values.set address.to_usize value⟩ }, none)
        else some (s2, some .InvalidAddress))
  else
    some (s, some .UnknownIdentifier)

/-- The dispatch on the fetched operator, i.e. the `match operator`
block of `Eval::evaluate_next_operator` (eval.rs); the state it receives
already carries the pre-incremented cursor.  In the `Reference` arm,
`none` embeds the panic on an operator index that does not fit a `u32`. -/
def evalOperator (operator : Operator) (s : Eval) : Option (Eval × Option Effect) :=
  match operator with
  | .Identifier value => evalIdentifier value s
  | .Integer value => some (s.pushV value, none)
  | .Reference name =>
    match s.labels.find? (fun label => label.name == name) with
    | none => some (s, some .InvalidReference)
    | some label =>
      if label.operator < 4294967296 then some (s.pushV (Value.of_u32 label.operator), none)
      else none

/-- Embeds `Eval::evaluate_next_operator` (eval.rs): fetch the operator
at the cursor (no operator means `OutOfOperators`, with the cursor left
alone), advance the cursor by one, then execute the operator's
semantics on the advanced state. -/
def evaluate_next_operator (s : Eval) : Option (Eval × Option Effect) :=
  match s.operators[s.next_operator]? with
  | none => some (s, some .OutOfOperators)
  | some operator => evalOperator operator { s with next_operator := s.next_operator + 1 }

/-- Embeds `Eval::step` (eval.rs): do nothing if an effect is active,
otherwise evaluate the next operator and store any effect it triggers.
The outer `Option` propagates the process-abort cases. -/
def Eval.step (s : Eval) : Option Eval :=
  if s.effect.isSome then some s
  else
    match evaluate_next_operator s with
    | none => none
    | some (s', none) => some s'
    | some (s', some e) => some { s' with effect := some e }

/-- Embeds the host action of clearing the effect slot
(`eval.effect = None`). -/
def Eval.clear_effect (s : Eval) : Eval :=
  { s with effect := none }

/-- Embeds `Eval::run`'s loop ("step until an effect is active"),
bounded by fuel: once an effect is active further steps do nothing, so
any sufficiently large fuel computes the suspension point. -/
def Eval.run : Nat → Eval → Option Eval
  | 0, s => some s
  | n + 1, s =>
    match s.step with
    | none => none
    | some s' => Eval.run n s'

/-! Tokenization helpers shared by `Eval::start` (eval.rs) and
`Script::compile` (script.rs).  Both classify a token with the same
if/else chain; script.rs additionally records a source map. -/

/-- Embeds `str::split_once` for a one-character pattern: split at the
first occurrence. -/
def splitOnceChar (c : Char) : List Char → Option (List Char × List Char)
  | [] => none
  | x :: rest =>
    if x = c then some ([], rest)
    else
      match splitOnceChar c rest with
      | none => none
      | some (pre, suf) => some (x :: pre, suf)

/-- Embeds `str::rsplit_once` for a one-character pattern: split at the
last occurrence; the first component is the part before it. -/
def rsplitOnceChar (c : Char) (l : List Char) : Option (List Char × List Char) :=
  match splitOnceChar c l.reverse with
  | none => none
  | some (suf, pre) => some (pre.reverse, suf.reverse)

/-- Embeds the pattern `let Some(("", value)) = token.split_once("0x")`
of the token classifier: it matches exactly when the token starts with
`0x`, and `value` is the rest. -/
def strip0x : List Char → Option (List Char)
  | '0' :: 'x' :: rest => some rest
  | _ => none

/-- Value of a digit for `from_str_radix(_, 16)`. -/
def hex_digit (c : Char) : Option Nat :=
  if '0' ≤ c ∧ c ≤ '9' then some (c.toNat - 48)
  else if 'a' ≤ c ∧ c ≤ 'f' then some (c.toNat - 87)
  else if 'A' ≤ c ∧ c ≤ 'F' then some (c.toNat - 55)
  else none

/-- Value of a digit for base-10 parsing. -/
def dec_digit (c : Char) : Option Nat :=
  if '0' ≤ c ∧ c ≤ '9' then some (c.toNat - 48) else none

/-- Unsigned value of a nonempty all-digit string; `none` on an empty
string or any non-digit, as in Rust's integer parsing. -/
def digits_value (radix : Nat) (digit : Char → Option Nat) (l : List Char) : Option Nat :=
  match l with
  | [] => none
  | _ =>
    l.foldl
      (fun acc c =>
        match acc, digit c with
        | some a, some d => some (a * radix + d)
        | _, _ => none)
      (some 0)

/-- Embeds `i32::from_str_radix` (and `str::parse::<i32>` for radix 10):
optional sign, at least one digit, error on overflow.  Rust checks the
bound during accumulation; checking the completed value gives the same
Ok/Err outcome. -/
def from_str_radix_i32 (radix : Nat) (digit : Char → Option Nat)
    (l : List Char) : Option Int :=
  match l with
  | '+' :: rest =>
    (digits_value radix digit rest).bind
      (fun n => if n ≤ 2147483647 then some (n : Int) else none)
  | '-' :: rest =>
    (digits_value radix digit rest).bind
      (fun n => if n ≤ 2147483648 then some (-(n : Int)) else none)
  | _ =>
    (digits_value radix digit l).bind
      (fun n => if n ≤ 2147483647 then some (n : Int) else none)

/-- Embeds `u32::from_str_radix` (and `str::parse::<u32>` for radix 10):
optional `+`, a leading `-` is rejected outright, error on overflow. -/
def from_str_radix_u32 (radix : Nat) (digit : Char → Option Nat)
    (l : List Char) : Option Nat :=
  match l with
  | '+' :: rest =>
    (digits_value radix digit rest).bind
      (fun n => if n ≤ 4294967295 then some n else none)
  | '-' :: _ => none
  | _ =>
    (digits_value radix digit l).bind
      (fun n => if n ≤ 4294967295 then some n else none)

/-- Result of classifying one token: either a label (recorded, no
operator emitted) or an operator to append. -/
inductive TokenClass where
  | label (name : String)
  | op (operator : Operator)
deriving DecidableEq

/-- The decimal tail of the classification chain: `parse::<i32>`, then
`parse::<u32>`, then fall back to an identifier. -/
def classifyDecimal (token : List Char) : Operator :=
  match from_str_radix_i32 10 dec_digit token with
  | some value => .Integer (Value.of_i32 value)
  | none =>
    match from_str_radix_u32 10 dec_digit token with
    | some value => Operator.integer_u32 value
    | none => .Identifier (String.mk token)

/-- The non-label part of the token classification chain shared by
`Eval::start` (eval.rs) and `parse_token` (script.rs): reference on a
leading `@`, hexadecimal integers behind `0x` (signed, then unsigned
reinterpretation), decimal integers, identifier otherwise. -/
def classifyTail (token : List Char) : Operator :=
  match splitOnceChar '@' token with
  | some ([], name) => .Reference (String.mk name)
  | _ =>
    match strip0x token with
    | some value =>
      (match from_str_radix_i32 16 hex_digit value with
      | some v => .Integer (Value.of_i32 v)
      | none =>
        match from_str_radix_u32 16 hex_digit value with
        | some v => Operator.integer_u32 v
        | none => classifyDecimal token)
    | none => classifyDecimal token

/-- Embeds the full token classification: a token whose
`rsplit_once(":")` has an empty remainder is a label (in the Rust code
this arm returns early from `parse_token` / `continue`s in
`Eval::start`); anything else compiles to the operator `classifyTail`
determines. -/
def classifyToken (token : List Char) : TokenClass :=
  match rsplitOnceChar ':' token with
  | some (name, []) => .label (String.mk name)
  | _ => .op (classifyTail token)

/-- Embeds `str::split_whitespace`: maximal runs of non-whitespace
characters (accumulator is kept reversed). -/
def splitWhitespaceAux (cur : List Char) : List Char → List (List Char)
  | [] => if cur.isEmpty then [] else [cur.reverse]
  | c :: rest =>
    if c.isWhitespace then
      if cur.isEmpty then splitWhitespaceAux [] rest
      else cur.reverse :: splitWhitespaceAux [] rest
    else splitWhitespaceAux (c :: cur) rest

/-- Embeds `str::split_whitespace`. -/
def split_whitespace (l : List Char) : List (List Char) :=
  splitWhitespaceAux [] l

/-- Splits at every newline (accumulator is kept reversed). -/
def splitOnNewlineAux (cur : List Char) : List Char → List (List Char)
  | [] => [cur.reverse]
  | c :: rest =>
    if c = '\n' then cur.reverse :: splitOnNewlineAux [] rest
    else splitOnNewlineAux (c :: cur) rest

/-- Embeds `str::lines`: split at newlines, drop a final empty segment
produced by a trailing terminator, strip one trailing `\r` per line. -/
def rust_lines (l : List Char) : List (List Char) :=
  let segs := splitOnNewlineAux [] l
  let segs := if segs.getLast? = some ([] : List Char) then segs.dropLast else segs
  segs.map (fun seg => if seg.getLast? = some '\r' then seg.dropLast else seg)

/-- The tokens `Eval::start` draws from one line: whitespace-separated
tokens up to (and excluding) the first token that starts with `#`,
which makes the rest of the line a comment. -/
def lineTokens (line : List Char) : List (List Char) :=
  (split_whitespace line).takeWhile
    (fun token =>
      match token with
      | '#' :: _ => false
      | _ => true)

/-- One token's contribution to `Eval::start`'s operator and label
lists: a label records the current operator count and emits no
operator; anything else is appended as an operator. -/
def startToken (acc : List Operator × List Label) (token : List Char) :
    List Operator × List Label :=
  match classifyToken token with
  | .label name => (acc.1, acc.2 ++ [{ name := name, operator := acc.1.length }])
  | .op operator => (acc.1 ++ [operator], acc.2)

/-- Embeds `Eval::start` (eval.rs): tokenize the script line by line,
classify every token, and return the initial evaluation state (cursor
0, empty call stack, no effect, empty operand stack, 1024 words of
zeroed memory). -/
def Eval.start (script : List Char) : Eval :=
  let tokens := ((rust_lines script).map lineTokens).flatten
  let compiled := tokens.foldl startToken ([], [])
  { operators := compiled.1
    labels := compiled.2
    next_operator := 0
    call_stack := []
    effect := none
    operand_stack := ⟨[]⟩
    memory := ⟨List.replicate 1024 ⟨0⟩⟩ }

/-! The script.rs compiler: a character-by-character finite-state
machine that additionally records a source map. -/

/-- Embeds `struct Script` (script.rs).  The `BTreeMap` source map is
embedded as the association list of its insertions
`(operator index, range start, range end)`; `parse_token` inserts
strictly increasing fresh keys, so lookup agrees with the map. -/
structure Script where
  operators : List Operator
  labels : List Label
  source_map : List (Nat × Nat × Nat)
deriving DecidableEq

/-- The mutable state threaded through `Script::compile`'s scan. -/
structure CompileState where
  operators : List Operator
  labels : List Label
  next_index : Nat
  source_map : List (Nat × Nat × Nat)
deriving DecidableEq

/-- Embeds `&script[range]`. -/
def sliceRange (src : List Char) (start stop : Nat) : List Char :=
  (src.drop start).take (stop - start)

/-- Embeds `parse_token` (script.rs): slice the token out of the
source, classify it; a label records the current operator count (the
`u32` conversion panic is unreachable for any source with fewer than
2^32 tokens and is embedded as the identity on `Nat` indices); an
operator is appended and its index is recorded in the source map
against the originating range. -/
def parse_token (src : List Char) (start stop : Nat) (cs : CompileState) : CompileState :=
  match classifyToken (sliceRange src start stop) with
  | .label name =>
    { cs with labels := cs.labels ++ [{ name := name, operator := cs.operators.length }] }
  | .op operator =>
    { cs with
      operators := cs.operators ++ [operator]
      source_map := cs.source_map ++ [(cs.next_index, start, stop)]
      next_index := cs.next_index + 1 }

/-- Embeds `enum State` of `Script::compile`. -/
inductive ScanState where
  | initial
  | comment
  | token (start : Nat)
deriving DecidableEq

/-- Embeds the `char_indices` loop of `Script::compile` plus the final
flush of an unterminated token (whose range ends at `script.len()`). -/
def compileAux (src : List Char) : List Char → Nat → ScanState → CompileState → CompileState
  | [], _, state, cs =>
    (match state with
    | .token start => parse_token src start src.length cs
    | _ => cs)
  | c :: rest, i, state, cs =>
    match state with
    | .initial =>
      if c = '#' then compileAux src rest (i + 1) .comment cs
      else if c.isWhitespace then compileAux src rest (i + 1) .initial cs
      else compileAux src rest (i + 1) (.token i) cs
    | .comment =>
      if c = '\n' then compileAux src rest (i + 1) .initial cs
      else compileAux src rest (i + 1) .comment cs
    | .token start =>
      if c.isWhitespace then compileAux src rest (i + 1) .initial (parse_token src start i cs)
      else compileAux src rest (i + 1) (.token start) cs

/-- Embeds `Script::compile` (script.rs). -/
def Script.compile (src : List Char) : Script :=
  let cs := compileAux src src 0 .initial ⟨[], [], 0, []⟩
  { operators := cs.operators, labels := cs.labels, source_map := cs.source_map }

/-- Lookup in the association-list embedding of the source map. -/
def lookupIndex (k : Nat) : List (Nat × Nat × Nat) → Option (Nat × Nat)
  | [] => none
  | (k', a, b) :: rest => if k' = k then some (a, b) else lookupIndex k rest

/-- Embeds `Script::map_operator_to_source`. -/
def Script.map_operator_to_source (s : Script) (operator : Nat) : Option (Nat × Nat) :=
  lookupIndex operator s.source_map

/-- Embeds `Script::operators`: the operators paired with their indices,
counting from the default index 0. -/
def Script.operatorsWithIndex (s : Script) : List (Nat × Operator) :=
  s.operators.enum

/-- Embeds `Script::resolve_reference`: first label with the name, in
linear scan order. -/
def Script.resolve_reference (s : Script) (name : String) : Option Nat :=
  match s.labels.find? (fun label => label.name == name) with
  | none => none
  | some label => some label.operator

/-! Helper lemmas about the embedded operations. -/

theorem OperandStack.pop_concat (l : List Value) (v : Value) :
    OperandStack.pop ⟨l ++ [v]⟩ = some (v, ⟨l⟩) := by
  simp [OperandStack.pop]

theorem Eval.popV_concat (s : Eval) (l : List Value) (v : Value)
    (h : s.operand_stack.values = l ++ [v]) :
    s.popV = some (v, { s with operand_stack := ⟨l⟩ }) := by
  have hs : s.operand_stack = ⟨l ++ [v]⟩ := by
    cases hos : s.operand_stack
    simp only [hos] at h
    simp [h]
  simp [Eval.popV, hs, OperandStack.pop_concat]

theorem Eval.popV_empty (s : Eval) (h : s.operand_stack.values = []) :
    s.popV = none := by
  have hs : s.operand_stack = ⟨[]⟩ := by
    cases hos : s.operand_stack
    simp only [hos] at h
    simp [h]
  simp [Eval.popV, hs, OperandStack.pop]

theorem step_of_evalOperator_ok (s t : Eval) (op : Operator)
    (heff : s.effect = none)
    (hfetch : s.operators[s.next_operator]? = some op)
    (hop : evalOperator op { s with next_operator := s.next_operator + 1 } = some (t, none)) :
    Eval.step s = some t := by
  unfold Eval.step evaluate_next_operator
  rw [heff] at hop
  simp [heff, hfetch, hop]

theorem step_of_evalOperator_err (s t : Eval) (op : Operator) (e : Effect)
    (heff : s.effect = none)
    (hfetch : s.operators[s.next_operator]? = some op)
    (hop : evalOperator op { s with next_operator := s.next_operator + 1 } =
      some (t, some e)) :
    Eval.step s = some { t with effect := some e } := by
  unfold Eval.step evaluate_next_operator
  rw [heff] at hop
  simp [heff, hfetch, hop]

theorem step_of_evalOperator_panic (s : Eval) (op : Operator)
    (heff : s.effect = none)
    (hfetch : s.operators[s.next_operator]? = some op)
    (hop : evalOperator op { s with next_operator := s.next_operator + 1 } = none) :
    Eval.step s = none := by
  unfold Eval.step evaluate_next_operator
  rw [heff] at hop
  simp [heff, hfetch, hop]

theorem Value.to_i32_eq_zero_iff (v : Value) (h : v.inner < 4294967296) :
    v.to_i32 = 0 ↔ v.inner = 0 := by
  unfold Value.to_i32
  split <;> omega

theorem Value.to_i32_eq_min_iff (v : Value) (h : v.inner < 4294967296) :
    v.to_i32 = -2147483648 ↔ v.inner = 2147483648 := by
  unfold Value.to_i32
  split <;> omega

theorem Value.to_i32_eq_neg_one_iff (v : Value) (h : v.inner < 4294967296) :
    v.to_i32 = -1 ↔ v.inner = 4294967295 := by
  unfold Value.to_i32
  split <;> omega

/-! Settled claims. -/

/-- C10: with no active effect and the cursor at or past the end of the
operator sequence, `step` stores `OutOfOperators` and changes nothing
else (in particular the cursor is not advanced), and a host that clears
the effect and steps again triggers `OutOfOperators` again from the
identical state. -/
theorem c10_out_of_operators (s : Eval)
    (heff : s.effect = none)
    (hend : s.operators[s.next_operator]? = none) :
    Eval.step s = some { s with effect := some Effect.OutOfOperators } ∧
    Eval.step (Eval.clear_effect { s with effect := some Effect.OutOfOperators }) =
      some { s with effect := some Effect.OutOfOperators } := by
  have hstep : Eval.step s = some { s with effect := some Effect.OutOfOperators } := by
    unfold Eval.step evaluate_next_operator
    simp [heff, hend]
  have hclear : Eval.clear_effect { s with effect := some Effect.OutOfOperators } = s := by
    unfold Eval.clear_effect
    cases s
    simp_all
  exact ⟨hstep, by rw [hclear, hstep]⟩

/-- C10 witness at a concrete state: the empty script. -/
theorem c10_out_of_operators_witness :
    Eval.step (Eval.start []) =
      some { Eval.start [] with effect := some Effect.OutOfOperators } ∧
    Eval.step (Eval.clear_effect { Eval.start [] with effect := some Effect.OutOfOperators }) =
      some { Eval.start [] with effect := some Effect.OutOfOperators } :=
  c10_out_of_operators (Eval.start []) (by decide) (by decide)

/-- C8: the claim that `shift_left`/`shift_right` complete without any
effect and without panicking for all 2^32 shift amounts is contradicted
by the code: the unchecked Rust shift `a << num_positions` is an
arithmetic overflow for any shift amount whose unsigned value is at
least 32 (in particular for every negative signed amount).  Under
overflow checks (the crate's own test builds) this panics; the
embedding maps the abort to `none`.  Evaluating the failing input
`1 32 shift_left` reaches that abort at the third step. -/
theorem c8_shift_left_overflow_aborts :
    Eval.run 3 (Eval.start ("1 32 shift_left".toList)) = none := by
  decide

/-- C2: evaluating `/` pops the divisor `b` (top of stack) then the
dividend `a`; it triggers `DivisionByZero` exactly when `b = 0`,
`IntegerOverflow` exactly when `a` is the minimum signed 32-bit value
(pattern 2^31) and `b = -1` (pattern 2^32 - 1); otherwise it pushes the
truncating quotient then the remainder (remainder on top).  In the two
error cases both operands remain popped. -/
theorem c2_division (s : Eval) (rest : List Value) (a b : Value)
    (ha : a.inner < 4294967296) (hb : b.inner < 4294967296)
    (heff : s.effect = none)
    (hfetch : s.operators[s.next_operator]? = some (.Identifier "/"))
    (hstack : s.operand_stack.values = rest ++ [a, b]) :
    (b.inner = 0 →
      Eval.step s = some { s with
        next_operator := s.next_operator + 1
        operand_stack := ⟨rest⟩
        effect := some Effect.DivisionByZero }) ∧
    (b.inner ≠ 0 → a.inner = 2147483648 → b.inner = 4294967295 →
      Eval.step s = some { s with
        next_operator := s.next_operator + 1
        operand_stack := ⟨rest⟩
        effect := some Effect.IntegerOverflow }) ∧
    (b.inner ≠ 0 → ¬(a.inner = 2147483648 ∧ b.inner = 4294967295) →
      Eval.step s = some { s with
        next_operator := s.next_operator + 1
        operand_stack := ⟨rest ++ [Value.of_i32 (a.to_i32.tdiv b.to_i32),
          Value.of_i32 (a.to_i32.tmod b.to_i32)]⟩ }) := by
  have h1 : Eval.popV { s with next_operator := s.next_operator + 1 } =
      some (b, { s with
        next_operator := s.next_operator + 1
        operand_stack := ⟨rest ++ [a]⟩ }) := by
    apply Eval.popV_concat
    simpa using hstack
  have h2 : Eval.popV { s with
      next_operator := s.next_operator + 1
      operand_stack := ⟨rest ++ [a]⟩ } =
      some (a, { s with
        next_operator := s.next_operator + 1
        operand_stack := ⟨rest⟩ }) := by
    apply Eval.popV_concat
    rfl
  refine ⟨fun hb0 => ?_, fun hbn hamin hbneg => ?_, fun hbn hnot => ?_⟩
  · have hz : b.to_i32 = 0 := (Value.to_i32_eq_zero_iff b hb).mpr hb0
    have hop : evalOperator (.Identifier "/")
        { s with next_operator := s.next_operator + 1 } =
        some ({ s with
          next_operator := s.next_operator + 1
          operand_stack := ⟨rest⟩ }, some Effect.DivisionByZero) := by
      simp [evalOperator, evalIdentifier, h1, h2, hz]
    exact step_of_evalOperator_err _ _ _ _ heff hfetch hop
  · have hz : ¬b.to_i32 = 0 := fun h => hbn ((Value.to_i32_eq_zero_iff b hb).mp h)
    have hmin : a.to_i32 = -2147483648 := (Value.to_i32_eq_min_iff a ha).mpr hamin
    have hneg : b.to_i32 = -1 := (Value.to_i32_eq_neg_one_iff b hb).mpr hbneg
    have hop : evalOperator (.Identifier "/")
        { s with next_operator := s.next_operator + 1 } =
        some ({ s with
          next_operator := s.next_operator + 1
          operand_stack := ⟨rest⟩ }, some Effect.IntegerOverflow) := by
      simp [evalOperator, evalIdentifier, h1, h2, hz, hmin, hneg]
    exact step_of_evalOperator_err _ _ _ _ heff hfetch hop
  · have hz : ¬b.to_i32 = 0 := fun h => hbn ((Value.to_i32_eq_zero_iff b hb).mp h)
    have hnot2 : ¬(a.to_i32 = -2147483648 ∧ b.to_i32 = -1) := by
      intro hcontra
      exact hnot ⟨(Value.to_i32_eq_min_iff a ha).mp hcontra.1,
        (Value.to_i32_eq_neg_one_iff b hb).mp hcontra.2⟩
    have hop : evalOperator (.Identifier "/")
        { s with next_operator := s.next_operator + 1 } =
        some ({ s with
          next_operator := s.next_operator + 1
          operand_stack := ⟨rest ++ [Value.of_i32 (a.to_i32.tdiv b.to_i32),
            Value.of_i32 (a.to_i32.tmod b.to_i32)]⟩ }, none) := by
      simp [evalOperator, evalIdentifier, h1, h2, hz, hnot2, Eval.pushV,
        OperandStack.push]
    exact step_of_evalOperator_ok _ _ _ heff hfetch hop

/-- C2 witness: `5 2 /` leaves quotient 2 below remainder 1. -/
theorem c2_division_witness :
    Eval.step
      { operators := [.Identifier "/"], labels := [], next_operator := 0,
        call_stack := [], effect := none, operand_stack := ⟨[⟨5⟩, ⟨2⟩]⟩,
        memory := ⟨[]⟩ } =
    some
      { operators := [.Identifier "/"], labels := [], next_operator := 1,
        call_stack := [], effect := none, operand_stack := ⟨[⟨2⟩, ⟨1⟩]⟩,
        memory := ⟨[]⟩ } := by
  have h := (c2_division
    { operators := [.Identifier "/"], labels := [], next_operator := 0,
      call_stack := [], effect := none, operand_stack := ⟨[⟨5⟩, ⟨2⟩]⟩,
      memory := ⟨[]⟩ }
    [] ⟨5⟩ ⟨2⟩ (by decide) (by decide) rfl (by decide) rfl).2.2
    (by decide) (by decide)
  rw [h]
  decide

theorem find?_first_match (p : Label → Bool) (pre : List Label) (lab : Label)
    (post : List Label)
    (hpre : ∀ l ∈ pre, p l = false) (hlab : p lab = true) :
    (pre ++ lab :: post).find? p = some lab := by
  induction pre with
  | nil => simp [List.find?_cons, hlab]
  | cons x xs ih =>
    have hx := hpre x (by simp)
    simp only [List.cons_append, List.find?_cons, hx]
    exact ih (fun l hl => hpre l (by simp [hl]))

/-- C7: evaluating a `Reference{name}` operator pushes, as an unsigned
value, the target of the first label with that name in linear scan
order (so with duplicate names the earliest wins), and triggers
`InvalidReference` exactly when no label with that name exists. -/
theorem c7_reference (s : Eval) (name : String)
    (heff : s.effect = none)
    (hfetch : s.operators[s.next_operator]? = some (.Reference name)) :
    ((∀ lab ∈ s.labels, lab.name ≠ name) →
      Eval.step s = some { s with
        next_operator := s.next_operator + 1
        effect := some Effect.InvalidReference }) ∧
    (∀ pre lab post, s.labels = pre ++ lab :: post → lab.name = name →
      (∀ l ∈ pre, l.name ≠ name) → lab.operator < 4294967296 →
      Eval.step s = some { s with
        next_operator := s.next_operator + 1
        operand_stack := s.operand_stack.push (Value.of_u32 lab.operator) }) := by
  constructor
  · intro hnone
    have hfind : s.labels.find? (fun label => label.name == name) = none := by
      rw [List.find?_eq_none]
      intro l hl
      simp [hnone l hl]
    have hop : evalOperator (.Reference name)
        { s with next_operator := s.next_operator + 1 } =
        some ({ s with next_operator := s.next_operator + 1 },
          some Effect.InvalidReference) := by
      simp [evalOperator, hfind]
    exact step_of_evalOperator_err _ _ _ _ heff hfetch hop
  · intro pre lab post hsplit hname hpre hbound
    have hfind : s.labels.find? (fun label => label.name == name) = some lab := by
      rw [hsplit]
      exact find?_first_match _ pre lab post
        (fun l hl => by simp [hpre l hl]) (by simp [hname])
    have hop : evalOperator (.Reference name)
        { s with next_operator := s.next_operator + 1 } =
        some ({ s with
          next_operator := s.next_operator + 1
          operand_stack := s.operand_stack.push (Value.of_u32 lab.operator) },
          none) := by
      simp [evalOperator, hfind, hbound, Eval.pushV]
    exact step_of_evalOperator_ok _ _ _ heff hfetch hop

/-- C7 witness: with labels `b -> 1, a -> 2, a -> 5`, the reference `@a`
pushes 2 (the first match); with no matching label, `InvalidReference`. -/
theorem c7_reference_witness :
    Eval.step
      { operators := [.Reference "a"], labels := [⟨"b", 1⟩, ⟨"a", 2⟩, ⟨"a", 5⟩],
        next_operator := 0, call_stack := [], effect := none,
        operand_stack := ⟨[]⟩, memory := ⟨[]⟩ } =
    some
      { operators := [.Reference "a"], labels := [⟨"b", 1⟩, ⟨"a", 2⟩, ⟨"a", 5⟩],
        next_operator := 1, call_stack := [], effect := none,
        operand_stack := ⟨[⟨2⟩]⟩, memory := ⟨[]⟩ } ∧
    Eval.step
      { operators := [.Reference "a"], labels := [⟨"b", 1⟩],
        next_operator := 0, call_stack := [], effect := none,
        operand_stack := ⟨[]⟩, memory := ⟨[]⟩ } =
    some
      { operators := [.Reference "a"], labels := [⟨"b", 1⟩],
        next_operator := 1, call_stack := [], effect := some Effect.InvalidReference,
        operand_stack := ⟨[]⟩, memory := ⟨[]⟩ } := by
  constructor
  · have h := (c7_reference
      { operators := [.Reference "a"], labels := [⟨"b", 1⟩, ⟨"a", 2⟩, ⟨"a", 5⟩],
        next_operator := 0, call_stack := [], effect := none,
        operand_stack := ⟨[]⟩, memory := ⟨[]⟩ } "a" rfl (by decide)).2
      [⟨"b", 1⟩] ⟨"a", 2⟩ [⟨"a", 5⟩] rfl rfl (by decide) (by decide)
    rw [h]
    decide
  · have h := (c7_reference
      { operators := [.Reference "a"], labels := [⟨"b", 1⟩],
        next_operator := 0, call_stack := [], effect := none,
        operand_stack := ⟨[]⟩, memory := ⟨[]⟩ } "a" rfl (by decide)).1
      (by decide)
    rw [h]

/-- C5: after `copy` or `drop` pops the index `i`, the shared index
conversion fails with `InvalidOperandStackIndex` exactly when `i` is at
least the remaining depth (including depth 0 with `i = 0`); otherwise
it computes `len - 1 - i` without wraparound, the element access cannot
fail (the `unreachable!` / `Vec::remove` panic branches are dead, i.e.
`step` cannot return the abort value `none`), `copy` pushes a duplicate
of the addressed value, and `drop` removes it preserving the order of
the rest. -/
theorem c5_copy_drop :
    (∀ (st : OperandStack) (i : Nat),
      convert_operand_stack_index st i =
        if i < st.values.length then some (st.values.length - 1 - i) else none) ∧
    (∀ (s : Eval) (l : List Value) (iv : Value),
      s.effect = none →
      s.operators[s.next_operator]? = some (.Identifier "copy") →
      s.operand_stack.values = l ++ [iv] →
      (l.length ≤ iv.inner →
        Eval.step s = some { s with
          next_operator := s.next_operator + 1
          operand_stack := ⟨l⟩
          effect := some Effect.InvalidOperandStackIndex }) ∧
      (∀ h : iv.inner < l.length,
        Eval.step s = some { s with
          next_operator := s.next_operator + 1
          operand_stack := ⟨l ++ [l.get ⟨l.length - 1 - iv.inner, by omega⟩]⟩ })) ∧
    (∀ (s : Eval) (l : List Value) (iv : Value),
      s.effect = none →
      s.operators[s.next_operator]? = some (.Identifier "drop") →
      s.operand_stack.values = l ++ [iv] →
      (l.length ≤ iv.inner →
        Eval.step s = some { s with
          next_operator := s.next_operator + 1
          operand_stack := ⟨l⟩
          effect := some Effect.InvalidOperandStackIndex }) ∧
      (iv.inner < l.length →
        Eval.step s = some { s with
          next_operator := s.next_operator + 1
          operand_stack := ⟨l.eraseIdx (l.length - 1 - iv.inner)⟩ })) := by
  have hconv : ∀ (st : OperandStack) (i : Nat),
      convert_operand_stack_index st i =
        if i < st.values.length then some (st.values.length - 1 - i) else none := by
    intro st i
    unfold convert_operand_stack_index checked_sub
    rcases Nat.eq_zero_or_pos st.values.length with hz | hp
    · simp [hz]
    · rw [if_pos (by omega : 1 ≤ st.values.length), Option.some_bind]
      by_cases hi : i < st.values.length
      · rw [if_pos (by omega), if_pos hi]
      · rw [if_neg (by omega), if_neg hi]
  refine ⟨hconv, fun s l iv heff hfetch hstack => ⟨fun hge => ?_, fun hlt => ?_⟩,
    fun s l iv heff hfetch hstack => ⟨fun hge => ?_, fun hlt => ?_⟩⟩ <;>
  have h1 : Eval.popV { s with next_operator := s.next_operator + 1 } =
      some (iv, { s with
        next_operator := s.next_operator + 1
        operand_stack := ⟨l⟩ }) := Eval.popV_concat _ l iv hstack
  · have hc : convert_operand_stack_index (⟨l⟩ : OperandStack) iv.inner = none := by
      rw [hconv]
      exact if_neg (show ¬ iv.inner < l.length by omega)
    have hop : evalOperator (.Identifier "copy")
        { s with next_operator := s.next_operator + 1 } =
        some ({ s with
          next_operator := s.next_operator + 1
          operand_stack := ⟨l⟩ }, some Effect.InvalidOperandStackIndex) := by
      simp [evalOperator, evalIdentifier, h1, Value.to_usize, hc]
    exact step_of_evalOperator_err _ _ _ _ heff hfetch hop
  · have hc : convert_operand_stack_index (⟨l⟩ : OperandStack) iv.inner =
        some (l.length - 1 - iv.inner) := by
      rw [hconv]
      exact if_pos (show iv.inner < l.length by omega)
    have hget : l[l.length - 1 - iv.inner]? =
        some (l.get ⟨l.length - 1 - iv.inner, by omega⟩) := by
      rw [List.getElem?_eq_getElem (by omega)]
      rfl
    have hop : evalOperator (.Identifier "copy")
        { s with next_operator := s.next_operator + 1 } =
        some ({ s with
          next_operator := s.next_operator + 1
          operand_stack := ⟨l ++ [l.get ⟨l.length - 1 - iv.inner, by omega⟩]⟩ },
          none) := by
      simp [evalOperator, evalIdentifier, h1, Value.to_usize, hc, hget,
        Eval.pushV, OperandStack.push]
    exact step_of_evalOperator_ok _ _ _ heff hfetch hop
  · have hc : convert_operand_stack_index (⟨l⟩ : OperandStack) iv.inner = none := by
      rw [hconv]
      exact if_neg (show ¬ iv.inner < l.length by omega)
    have hop : evalOperator (.Identifier "drop")
        { s with next_operator := s.next_operator + 1 } =
        some ({ s with
          next_operator := s.next_operator + 1
          operand_stack := ⟨l⟩ }, some Effect.InvalidOperandStackIndex) := by
      simp [evalOperator, evalIdentifier, h1, Value.to_usize, hc]
    exact step_of_evalOperator_err _ _ _ _ heff hfetch hop
  · have hc : convert_operand_stack_index (⟨l⟩ : OperandStack) iv.inner =
        some (l.length - 1 - iv.inner) := by
      rw [hconv]
      exact if_pos (show iv.inner < l.length by omega)
    have hlen : l.length - 1 - iv.inner < l.length := by omega
    have hop : evalOperator (.Identifier "drop")
        { s with next_operator := s.next_operator + 1 } =
        some ({ s with
          next_operator := s.next_operator + 1
          operand_stack := ⟨l.eraseIdx (l.length - 1 - iv.inner)⟩ }, none) := by
      simp [evalOperator, evalIdentifier, h1, Value.to_usize, hc, hlen]
    exact step_of_evalOperator_ok _ _ _ heff hfetch hop

/-- C5 witness: `3 5 8 1 copy` duplicates the 5; depth 0 with index 0
triggers `InvalidOperandStackIndex`. -/
theorem c5_copy_drop_witness :
    Eval.step
      { operators := [.Identifier "copy"], labels := [], next_operator := 0,
        call_stack := [], effect := none,
        operand_stack := ⟨[⟨3⟩, ⟨5⟩, ⟨8⟩, ⟨1⟩]⟩, memory := ⟨[]⟩ } =
    some
      { operators := [.Identifier "copy"], labels := [], next_operator := 1,
        call_stack := [], effect := none,
        operand_stack := ⟨[⟨3⟩, ⟨5⟩, ⟨8⟩, ⟨5⟩]⟩, memory := ⟨[]⟩ } ∧
    Eval.step
      { operators := [.Identifier "drop"], labels := [], next_operator := 0,
        call_stack := [], effect := none,
        operand_stack := ⟨[⟨0⟩]⟩, memory := ⟨[]⟩ } =
    some
      { operators := [.Identifier "drop"], labels := [], next_operator := 1,
        call_stack := [], effect := some Effect.InvalidOperandStackIndex,
        operand_stack := ⟨[]⟩, memory := ⟨[]⟩ } := by
  constructor
  · have h := ((c5_copy_drop.2.1
      { operators := [.Identifier "copy"], labels := [], next_operator := 0,
        call_stack := [], effect := none,
        operand_stack := ⟨[⟨3⟩, ⟨5⟩, ⟨8⟩, ⟨1⟩]⟩, memory := ⟨[]⟩ }
      [⟨3⟩, ⟨5⟩, ⟨8⟩] ⟨1⟩ rfl (by decide) rfl).2 (by decide))
    rw [h]
    decide
  · have h := ((c5_copy_drop.2.2
      { operators := [.Identifier "drop"], labels := [], next_operator := 0,
        call_stack := [], effect := none,
        operand_stack := ⟨[⟨0⟩]⟩, memory := ⟨[]⟩ }
      [] ⟨0⟩ rfl (by decide) rfl).1 (by decide))
    rw [h]

/-! Frame infrastructure: what a single dispatch can change. -/

theorem Eval.popV_cases (s : Eval) :
    s.popV = none ∨
    ∃ v, s.popV = some (v, { s with operand_stack := ⟨s.operand_stack.values.dropLast⟩ }) := by
  unfold Eval.popV OperandStack.pop
  cases h : s.operand_stack.values.getLast? <;> simp

theorem exists_take_refl (l : List Value) : ∃ k, l = l.take k :=
  ⟨l.length, (List.take_length l).symm⟩

theorem exists_take_dropLast_one (l : List Value) : ∃ k, l.dropLast = l.take k :=
  ⟨l.length - 1, by rw [List.dropLast_eq_take]⟩

theorem exists_take_dropLast_two (l : List Value) :
    ∃ k, l.dropLast.dropLast = l.take k := by
  refine ⟨l.length - 2, ?_⟩
  simp only [List.dropLast_eq_take, List.take_take, List.length_take]
  congr 1
  omega

theorem exists_take_dropLast_three (l : List Value) :
    ∃ k, l.dropLast.dropLast.dropLast = l.take k := by
  refine ⟨l.length - 3, ?_⟩
  simp only [List.dropLast_eq_take, List.take_take, List.length_take]
  congr 1
  omega

/-- The frame property of a single identifier dispatch outcome: the
memory length is preserved; the effect slot is untouched; and an error
outcome leaves the memory intact, leaves a prefix of the operand stack
(pops only), and either leaves the call stack alone or (only for
`call`/`call_either`) has pushed the return address onto it. -/
def DispatchFrame (identifier : String) (s t : Eval) (eo : Option Effect) : Prop :=
  t.memory.values.length = s.memory.values.length ∧
  t.effect = s.effect ∧
  (∀ e, eo = some e → e.isError = true →
    t.memory = s.memory ∧
    (∃ k, t.operand_stack.values = s.operand_stack.values.take k) ∧
    (t.call_stack = s.call_stack ∨
      ((identifier = "call" ∨ identifier = "call_either") ∧
        t.call_stack = s.call_stack ++ [s.next_operator])))

theorem binop_frame (identifier : String) (f : Value → Value → Value)
    (s t : Eval) (eo : Option Effect)
    (h : some (binop f s) = some (t, eo)) : DispatchFrame identifier s t eo := by
  simp only [Option.some.injEq] at h
  unfold binop at h
  rcases Eval.popV_cases s with hp | ⟨b, hp⟩
  · simp only [hp] at h
    injection h with h1 h2
    subst h1
    subst h2
    exact ⟨rfl, rfl, fun e he herr => ⟨rfl, exists_take_refl _, Or.inl rfl⟩⟩
  · simp only [hp] at h
    rcases Eval.popV_cases
        { s with operand_stack := ⟨s.operand_stack.values.dropLast⟩ } with hp2 | ⟨a, hp2⟩
    · simp only [hp2] at h
      injection h with h1 h2
      subst h1
      subst h2
      exact ⟨rfl, rfl, fun e he herr => ⟨rfl, exists_take_dropLast_one _, Or.inl rfl⟩⟩
    · simp only [hp2] at h
      injection h with h1 h2
      subst h1
      subst h2
      exact ⟨rfl, rfl, fun e he herr => by simp at he⟩

theorem unop_frame (identifier : String) (f : Value → Value)
    (s t : Eval) (eo : Option Effect)
    (h : some (unop f s) = some (t, eo)) : DispatchFrame identifier s t eo := by
  simp only [Option.some.injEq] at h
  unfold unop at h
  rcases Eval.popV_cases s with hp | ⟨a, hp⟩ <;> simp only [hp] at h <;>
    injection h with h1 h2 <;> subst h1 <;> subst h2
  · exact ⟨rfl, rfl, fun e he herr => ⟨rfl, exists_take_refl _, Or.inl rfl⟩⟩
  · exact ⟨rfl, rfl, fun e he herr => by simp at he⟩

set_option maxHeartbeats 4000000 in
theorem evalIdentifier_frame (identifier : String) (s t : Eval) (eo : Option Effect)
    (h : evalIdentifier identifier s = some (t, eo)) :
    DispatchFrame identifier s t eo := by
  unfold evalIdentifier at h
  by_cases hmul : identifier = "*"
  · rw [if_pos hmul] at h
    exact binop_frame _ _ _ _ _ h
  rw [if_neg hmul] at h
  by_cases hadd : identifier = "+"
  · rw [if_pos hadd] at h
    exact binop_frame _ _ _ _ _ h
  rw [if_neg hadd] at h
  by_cases hsub : identifier = "-"
  · rw [if_pos hsub] at h
    exact binop_frame _ _ _ _ _ h
  rw [if_neg hsub] at h
  by_cases hdiv : identifier = "/"
  · rw [if_pos hdiv] at h
    -- "/"
    simp only [Option.some.injEq] at h
    rcases Eval.popV_cases s with hp | ⟨b, hp⟩
    · simp only [hp] at h
      injection h with h1 h2
      subst h1
      subst h2
      exact ⟨rfl, rfl, fun e he herr => ⟨rfl, exists_take_refl _, Or.inl rfl⟩⟩
    · simp only [hp] at h
      rcases Eval.popV_cases
          { s with operand_stack := ⟨s.operand_stack.values.dropLast⟩ } with hp2 | ⟨a, hp2⟩
      · simp only [hp2] at h
        injection h with h1 h2
        subst h1
        subst h2
        exact ⟨rfl, rfl, fun e he herr =>
          ⟨rfl, exists_take_dropLast_one s.operand_stack.values, Or.inl rfl⟩⟩
      · simp only [hp2] at h
        split at h
        · injection h with h1 h2
          subst h1
          subst h2
          exact ⟨rfl, rfl, fun e he herr =>
            ⟨rfl, exists_take_dropLast_two s.operand_stack.values, Or.inl rfl⟩⟩
        · split at h
          · injection h with h1 h2
            subst h1
            subst h2
            exact ⟨rfl, rfl, fun e he herr =>
              ⟨rfl, exists_take_dropLast_two s.operand_stack.values, Or.inl rfl⟩⟩
          · injection h with h1 h2
            subst h1
            subst h2
            exact ⟨rfl, rfl, fun e he herr => by simp at he⟩
  rw [if_neg hdiv] at h
  by_cases hclt : identifier = "<"
  · rw [if_pos hclt] at h
    exact binop_frame _ _ _ _ _ h
  rw [if_neg hclt] at h
  by_cases hcle : identifier = "<="
  · rw [if_pos hcle] at h
    exact binop_frame _ _ _ _ _ h
  rw [if_neg hcle] at h
  by_cases hceq : identifier = "="
  · rw [if_pos hceq] at h
    exact binop_frame _ _ _ _ _ h
  rw [if_neg hceq] at h
  by_cases hcgt : identifier = ">"
  · rw [if_pos hcgt] at h
    exact binop_frame _ _ _ _ _ h
  rw [if_neg hcgt] at h
  by_cases hcge : identifier = ">="
  · rw [if_pos hcge] at h
    exact binop_frame _ _ _ _ _ h
  rw [if_neg hcge] at h
  by_cases hband : identifier = "and"
  · rw [if_pos hband] at h
    exact binop_frame _ _ _ _ _ h
  rw [if_neg hband] at h
  by_cases hbor : identifier = "or"
  · rw [if_pos hbor] at h
    exact binop_frame _ _ _ _ _ h
  rw [if_neg hbor] at h
  by_cases hbxor : identifier = "xor"
  · rw [if_pos hbxor] at h
    exact binop_frame _ _ _ _ _ h
  rw [if_neg hbxor] at h
  by_cases hcnt : identifier = "count_ones"
  · rw [if_pos hcnt] at h
    exact unop_frame _ _ _ _ _ h
  rw [if_neg hcnt] at h
  by_cases hldz : identifier = "leading_zeros"
  · rw [if_pos hldz] at h
    exact unop_frame _ _ _ _ _ h
  rw [if_neg hldz] at h
  by_cases htlz : identifier = "trailing_zeros"
  · rw [if_pos htlz] at h
    exact unop_frame _ _ _ _ _ h
  rw [if_neg htlz] at h
  by_cases hrol : identifier = "rotate_left"
  · rw [if_pos hrol] at h
    exact binop_frame _ _ _ _ _ h
  rw [if_neg hrol] at h
  by_cases hror : identifier = "rotate_right"
  · rw [if_pos hror] at h
    exact binop_frame _ _ _ _ _ h
  rw [if_neg hror] at h
  by_cases hshl : identifier = "shift_left"
  · rw [if_pos hshl] at h
    -- "shift_left"
    rcases Eval.popV_cases s with hp | ⟨n, hp⟩
    · simp only [hp] at h
      injection h with h1
      injection h1 with h1 h2
      subst h1
      subst h2
      exact ⟨rfl, rfl, fun e he herr => ⟨rfl, exists_take_refl _, Or.inl rfl⟩⟩
    · simp only [hp] at h
      rcases Eval.popV_cases
          { s with operand_stack := ⟨s.operand_stack.values.dropLast⟩ } with hp2 | ⟨a, hp2⟩
      · simp only [hp2] at h
        injection h with h1
        injection h1 with h1 h2
        subst h1
        subst h2
        exact ⟨rfl, rfl, fun e he herr =>
          ⟨rfl, exists_take_dropLast_one s.operand_stack.values, Or.inl rfl⟩⟩
      · simp only [hp2] at h
        split at h
        · injection h with h1
          injection h1 with h1 h2
          subst h1
          subst h2
          exact ⟨rfl, rfl, fun e he herr => by simp at he⟩
        · simp at h
  rw [if_neg hshl] at h
  by_cases hshr : identifier = "shift_right"
  · rw [if_pos hshr] at h
    -- "shift_right"
    rcases Eval.popV_cases s with hp | ⟨n, hp⟩
    · simp only [hp] at h
      injection h with h1
      injection h1 with h1 h2
      subst h1
      subst h2
      exact ⟨rfl, rfl, fun e he herr => ⟨rfl, exists_take_refl _, Or.inl rfl⟩⟩
    · simp only [hp] at h
      rcases Eval.popV_cases
          { s with operand_stack := ⟨s.operand_stack.values.dropLast⟩ } with hp2 | ⟨a, hp2⟩
      · simp only [hp2] at h
        injection h with h1
        injection h1 with h1 h2
        subst h1
        subst h2
        exact ⟨rfl, rfl, fun e he herr =>
          ⟨rfl, exists_take_dropLast_one s.operand_stack.values, Or.inl rfl⟩⟩
      · simp only [hp2] at h
        split at h
        · injection h with h1
          injection h1 with h1 h2
          subst h1
          subst h2
          exact ⟨rfl, rfl, fun e he herr => by simp at he⟩
        · simp at h
  rw [if_neg hshr] at h
  by_cases hcopy : identifier = "copy"
  · rw [if_pos hcopy] at h
    -- "copy"
    rcases Eval.popV_cases s with hp | ⟨iv, hp⟩
    · simp only [hp] at h
      injection h with h1
      injection h1 with h1 h2
      subst h1
      subst h2
      exact ⟨rfl, rfl, fun e he herr => ⟨rfl, exists_take_refl _, Or.inl rfl⟩⟩
    · simp only [hp] at h
      cases hc : convert_operand_stack_index
          (⟨s.operand_stack.values.dropLast⟩ : OperandStack) iv.to_usize with
      | none =>
        simp only [hc] at h
        injection h with h1
        injection h1 with h1 h2
        subst h1
        subst h2
        exact ⟨rfl, rfl, fun e he herr =>
          ⟨rfl, exists_take_dropLast_one s.operand_stack.values, Or.inl rfl⟩⟩
      | some idx =>
        simp only [hc] at h
        cases hg : s.operand_stack.values.dropLast[idx]? with
        | none => simp only [hg] at h; simp at h
        | some v =>
          simp only [hg] at h
          injection h with h1
          injection h1 with h1 h2
          subst h1
          subst h2
          exact ⟨rfl, rfl, fun e he herr => by simp at he⟩
  rw [if_neg hcopy] at h
  by_cases hdrop : identifier = "drop"
  · rw [if_pos hdrop] at h
    -- "drop"
    rcases Eval.popV_cases s with hp | ⟨iv, hp⟩
    · simp only [hp] at h
      injection h with h1
      injection h1 with h1 h2
      subst h1
      subst h2
      exact ⟨rfl, rfl, fun e he herr => ⟨rfl, exists_take_refl _, Or.inl rfl⟩⟩
    · simp only [hp] at h
      cases hc : convert_operand_stack_index
          (⟨s.operand_stack.values.dropLast⟩ : OperandStack) iv.to_usize with
      | none =>
        simp only [hc] at h
        injection h with h1
        injection h1 with h1 h2
        subst h1
        subst h2
        exact ⟨rfl, rfl, fun e he herr =>
          ⟨rfl, exists_take_dropLast_one s.operand_stack.values, Or.inl rfl⟩⟩
      | some idx =>
        simp only [hc] at h
        split at h
        · injection h with h1
          injection h1 with h1 h2
          subst h1
          subst h2
          exact ⟨rfl, rfl, fun e he herr => by simp at he⟩
        · simp at h
  rw [if_neg hdrop] at h
  by_cases hjmp : identifier = "jump"
  · rw [if_pos hjmp] at h
    -- "jump"
    rcases Eval.popV_cases s with hp | ⟨iv, hp⟩ <;> simp only [hp] at h <;>
      injection h with h1 <;> injection h1 with h1 h2 <;> subst h1 <;> subst h2
    · exact ⟨rfl, rfl, fun e he herr => ⟨rfl, exists_take_refl _, Or.inl rfl⟩⟩
    · exact ⟨rfl, rfl, fun e he herr => by simp at he⟩
  rw [if_neg hjmp] at h
  by_cases hjmpif : identifier = "jump_if"
  · rw [if_pos hjmpif] at h
    -- "jump_if"
    rcases Eval.popV_cases s with hp | ⟨iv, hp⟩
    · simp only [hp] at h
      injection h with h1
      injection h1 with h1 h2
      subst h1
      subst h2
      exact ⟨rfl, rfl, fun e he herr => ⟨rfl, exists_take_refl _, Or.inl rfl⟩⟩
    · simp only [hp] at h
      rcases Eval.popV_cases
          { s with operand_stack := ⟨s.operand_stack.values.dropLast⟩ } with hp2 | ⟨c, hp2⟩
      · simp only [hp2] at h
        injection h with h1
        injection h1 with h1 h2
        subst h1
        subst h2
        exact ⟨rfl, rfl, fun e he herr =>
          ⟨rfl, exists_take_dropLast_one s.operand_stack.values, Or.inl rfl⟩⟩
      · simp only [hp2] at h
        split at h <;> injection h with h1 <;> injection h1 with h1 h2 <;>
          subst h1 <;> subst h2 <;>
          exact ⟨rfl, rfl, fun e he herr => by simp at he⟩
  rw [if_neg hjmpif] at h
  by_cases hcall : identifier = "call"
  · rw [if_pos hcall] at h
    -- "call"
    rcases Eval.popV_cases
        { s with call_stack := s.call_stack ++ [s.next_operator] } with hp | ⟨iv, hp⟩ <;>
      simp only [hp] at h <;> injection h with h1 <;> injection h1 with h1 h2 <;>
      subst h1 <;> subst h2
    · exact ⟨rfl, rfl, fun e he herr =>
        ⟨rfl, exists_take_refl _, Or.inr ⟨Or.inl hcall, rfl⟩⟩⟩
    · exact ⟨rfl, rfl, fun e he herr => by simp at he⟩
  rw [if_neg hcall] at h
  by_cases hcalle : identifier = "call_either"
  · rw [if_pos hcalle] at h
    -- "call_either"
    rcases Eval.popV_cases
        { s with call_stack := s.call_stack ++ [s.next_operator] } with hp | ⟨e1, hp⟩
    · simp only [hp] at h
      injection h with h1
      injection h1 with h1 h2
      subst h1
      subst h2
      exact ⟨rfl, rfl, fun e he herr =>
        ⟨rfl, exists_take_refl _, Or.inr ⟨Or.inr hcalle, rfl⟩⟩⟩
    · simp only [hp] at h
      rcases Eval.popV_cases
          { { s with call_stack := s.call_stack ++ [s.next_operator] } with
            operand_stack := ⟨s.operand_stack.values.dropLast⟩ } with hp2 | ⟨e2, hp2⟩
      · simp only [hp2] at h
        injection h with h1
        injection h1 with h1 h2
        subst h1
        subst h2
        exact ⟨rfl, rfl, fun e he herr =>
          ⟨rfl, exists_take_dropLast_one s.operand_stack.values,
            Or.inr ⟨Or.inr hcalle, rfl⟩⟩⟩
      · simp only [hp2] at h
        rcases Eval.popV_cases
            { { s with call_stack := s.call_stack ++ [s.next_operator] } with
              operand_stack := ⟨s.operand_stack.values.dropLast.dropLast⟩ } with hp3 | ⟨e3, hp3⟩
        · simp only [hp3] at h
          injection h with h1
          injection h1 with h1 h2
          subst h1
          subst h2
          exact ⟨rfl, rfl, fun e he herr =>
            ⟨rfl, exists_take_dropLast_two s.operand_stack.values,
              Or.inr ⟨Or.inr hcalle, rfl⟩⟩⟩
        · simp only [hp3] at h
          injection h with h1
          injection h1 with h1 h2
          subst h1
          subst h2
          exact ⟨rfl, rfl, fun e he herr => by simp at he⟩
  rw [if_neg hcalle] at h
  by_cases hret : identifier = "return"
  · rw [if_pos hret] at h
    -- "return"
    cases hg : s.call_stack.getLast? with
    | none =>
      simp only [hg] at h
      injection h with h1
      injection h1 with h1 h2
      subst h1
      subst h2
      refine ⟨rfl, rfl, fun e he herr => ?_⟩
      simp only [Option.some.injEq] at he
      subst he
      simp [Effect.isError] at herr
    | some idx =>
      simp only [hg] at h
      injection h with h1
      injection h1 with h1 h2
      subst h1
      subst h2
      exact ⟨rfl, rfl, fun e he herr => by simp at he⟩
  rw [if_neg hret] at h
  by_cases hasrt : identifier = "assert"
  · rw [if_pos hasrt] at h
    -- "assert"
    rcases Eval.popV_cases s with hp | ⟨c, hp⟩
    · simp only [hp] at h
      injection h with h1
      injection h1 with h1 h2
      subst h1
      subst h2
      exact ⟨rfl, rfl, fun e he herr => ⟨rfl, exists_take_refl _, Or.inl rfl⟩⟩
    · simp only [hp] at h
      split at h <;> injection h with h1 <;> injection h1 with h1 h2 <;>
        subst h1 <;> subst h2
      · exact ⟨rfl, rfl, fun e he herr => by simp at he⟩
      · exact ⟨rfl, rfl, fun e he herr =>
          ⟨rfl, exists_take_dropLast_one s.operand_stack.values, Or.inl rfl⟩⟩
  rw [if_neg hasrt] at h
  by_cases hyld : identifier = "yield"
  · rw [if_pos hyld] at h
    -- "yield"
    injection h with h1
    injection h1 with h1 h2
    subst h1
    subst h2
    refine ⟨rfl, rfl, fun e he herr => ?_⟩
    simp only [Option.some.injEq] at he
    subst he
    simp [Effect.isError] at herr
  rw [if_neg hyld] at h
  by_cases hrd : identifier = "read"
  · rw [if_pos hrd] at h
    -- "read"
    rcases Eval.popV_cases s with hp | ⟨addr, hp⟩
    · simp only [hp] at h
      injection h with h1
      injection h1 with h1 h2
      subst h1
      subst h2
      exact ⟨rfl, rfl, fun e he herr => ⟨rfl, exists_take_refl _, Or.inl rfl⟩⟩
    · simp only [hp] at h
      cases hm : s.memory.values[addr.to_usize]? with
      | none =>
        simp only [hm] at h
        injection h with h1
        injection h1 with h1 h2
        subst h1
        subst h2
        exact ⟨rfl, rfl, fun e he herr =>
          ⟨rfl, exists_take_dropLast_one s.operand_stack.values, Or.inl rfl⟩⟩
      | some v =>
        simp only [hm] at h
        injection h with h1
        injection h1 with h1 h2
        subst h1
        subst h2
        exact ⟨rfl, rfl, fun e he herr => by simp at he⟩
  rw [if_neg hrd] at h
  by_cases hwr : identifier = "write"
  · rw [if_pos hwr] at h
    -- "write"
    rcases Eval.popV_cases s with hp | ⟨v, hp⟩
    · simp only [hp] at h
      injection h with h1
      injection h1 with h1 h2
      subst h1
      subst h2
      exact ⟨rfl, rfl, fun e he herr => ⟨rfl, exists_take_refl _, Or.inl rfl⟩⟩
    · simp only [hp] at h
      rcases Eval.popV_cases
          { s with operand_stack := ⟨s.operand_stack.values.dropLast⟩ } with hp2 | ⟨addr, hp2⟩
      · simp only [hp2] at h
        injection h with h1
        injection h1 with h1 h2
        subst h1
        subst h2
        exact ⟨rfl, rfl, fun e he herr =>
          ⟨rfl, exists_take_dropLast_one s.operand_stack.values, Or.inl rfl⟩⟩
      · simp only [hp2] at h
        split at h
        · injection h with h1
          injection h1 with h1 h2
          subst h1
          subst h2
          exact ⟨by simp, rfl, fun e he herr => by simp at he⟩
        · injection h with h1
          injection h1 with h1 h2
          subst h1
          subst h2
          exact ⟨rfl, rfl, fun e he herr =>
            ⟨rfl, exists_take_dropLast_two s.operand_stack.values, Or.inl rfl⟩⟩
  rw [if_neg hwr] at h
  -- unknown identifier
  injection h with h1
  injection h1 with h1 h2
  subst h1
  subst h2
  exact ⟨rfl, rfl, fun e he herr => ⟨rfl, exists_take_refl _, Or.inl rfl⟩⟩

/-- Frame property of a whole `evaluate_next_operator` call: the memory
length is always preserved and the effect slot is untouched; an outcome
carrying an error effect has changed nothing but the cursor, the pops
already performed, and (for `call`/`call_either` only) the return
address pushed onto the call stack. -/
theorem evaluate_frame (s t : Eval) (eo : Option Effect)
    (h : evaluate_next_operator s = some (t, eo)) :
    t.memory.values.length = s.memory.values.length ∧
    t.effect = s.effect ∧
    (∀ e, eo = some e → e.isError = true →
      t.memory = s.memory ∧
      (∃ k, t.operand_stack.values = s.operand_stack.values.take k) ∧
      (t.call_stack = s.call_stack ∨
        ((s.operators[s.next_operator]? = some (.Identifier "call") ∨
          s.operators[s.next_operator]? = some (.Identifier "call_either")) ∧
          t.call_stack = s.call_stack ++ [s.next_operator + 1]))) := by
  unfold evaluate_next_operator at h
  cases hf : s.operators[s.next_operator]? with
  | none =>
    simp only [hf] at h
    injection h with h1
    injection h1 with h1 h2
    subst h1
    subst h2
    refine ⟨rfl, rfl, fun e he herr => ?_⟩
    simp only [Option.some.injEq] at he
    subst he
    simp [Effect.isError] at herr
  | some op =>
    simp only [hf] at h
    cases op with
    | Integer v =>
      simp only [evalOperator] at h
      injection h with h1
      injection h1 with h1 h2
      subst h1
      subst h2
      exact ⟨rfl, rfl, fun e he herr => by simp at he⟩
    | Reference name =>
      simp only [evalOperator] at h
      cases hfind : Eval.labels
          { s with next_operator := s.next_operator + 1 }
          |>.find? (fun label => label.name == name) with
      | none =>
        simp only [hfind] at h
        injection h with h1
        injection h1 with h1 h2
        subst h1
        subst h2
        exact ⟨rfl, rfl, fun e he herr =>
          ⟨rfl, exists_take_refl _, Or.inl rfl⟩⟩
      | some lab =>
        simp only [hfind] at h
        split at h
        · injection h with h1
          injection h1 with h1 h2
          subst h1
          subst h2
          exact ⟨rfl, rfl, fun e he herr => by simp at he⟩
        · simp at h
    | Identifier id =>
      simp only [evalOperator] at h
      obtain ⟨hlen, heffp, herrp⟩ :=
        evalIdentifier_frame id { s with next_operator := s.next_operator + 1 } t eo h
      refine ⟨hlen, heffp, fun e he herr => ?_⟩
      obtain ⟨hm, hst, hcs⟩ := herrp e he herr
      refine ⟨hm, hst, ?_⟩
      rcases hcs with hcs | ⟨hid, hcs⟩
      · exact Or.inl hcs
      · refine Or.inr ⟨?_, hcs⟩
        rcases hid with rfl | rfl
        · exact Or.inl rfl
        · exact Or.inr rfl

set_option maxRecDepth 100000 in
/-- C3 counterexample: the claim says an `OperandStackUnderflow`
dispatch of `call` leaves the call stack unchanged.  It does not:
`call` pushes the return address *before* popping the target, so the
script `call` evaluated on an empty operand stack ends with effect
`OperandStackUnderflow` and the return address 1 left on the
previously empty call stack. -/
theorem c3_counterexample :
    (Eval.start ("call".toList)).call_stack = [] ∧
    Eval.step (Eval.start ("call".toList)) =
      some { Eval.start ("call".toList) with
        next_operator := 1
        call_stack := [1]
        effect := some Effect.OperandStackUnderflow } := by
  decide

/-- C3 amended: for every dispatch that ends in an error effect, the
only state changes besides the pre-incremented cursor are the
operand-stack pops already performed (the remaining operand stack is a
prefix of the original), the storing of the effect, and — for `call`
and `call_either` only — the return-address push those two operators
perform before popping their operands.  No operand-stack pushes and no
memory changes occur in a failing dispatch. -/
theorem c3_error_frame (s s' : Eval) (e : Effect)
    (heff : s.effect = none)
    (hstep : Eval.step s = some s')
    (heff' : s'.effect = some e)
    (herr : e.isError = true) :
    s'.memory = s.memory ∧
    (∃ k, s'.operand_stack.values = s.operand_stack.values.take k) ∧
    (s'.call_stack = s.call_stack ∨
      ((s.operators[s.next_operator]? = some (.Identifier "call") ∨
        s.operators[s.next_operator]? = some (.Identifier "call_either")) ∧
        s'.call_stack = s.call_stack ++ [s.next_operator + 1])) := by
  unfold Eval.step at hstep
  rw [heff] at hstep
  simp only [Option.isSome_none, Bool.false_eq_true, if_false] at hstep
  cases hev : evaluate_next_operator s with
  | none => rw [hev] at hstep; exact absurd hstep (by simp)
  | some r =>
    obtain ⟨t, eo⟩ := r
    rw [hev] at hstep
    obtain ⟨hlen, heffp, herrp⟩ := evaluate_frame s t eo hev
    cases eo with
    | none =>
      simp only [Option.some.injEq] at hstep
      subst hstep
      rw [heff] at heffp
      exact absurd heff' (by simp [heffp])
    | some e2 =>
      simp only [Option.some.injEq] at hstep
      subst hstep
      simp only [Option.some.injEq] at heff'
      subst heff'
      exact herrp _ rfl herr

set_option maxRecDepth 100000 in
/-- C3 witness for the amended theorem, at the concrete counterexample
state: the failing `call` dispatch kept the memory and operand stack
and pushed exactly the return address onto the call stack. -/
theorem c3_error_frame_witness :
    (Eval.step (Eval.start ("call".toList)) =
      some { Eval.start ("call".toList) with
        next_operator := 1
        call_stack := [1]
        effect := some Effect.OperandStackUnderflow }) ∧
    ({ Eval.start ("call".toList) with
        next_operator := 1
        call_stack := [1]
        effect := some Effect.OperandStackUnderflow } : Eval).memory =
      (Eval.start ("call".toList)).memory ∧
    (∃ k, ({ Eval.start ("call".toList) with
        next_operator := 1
        call_stack := [1]
        effect := some Effect.OperandStackUnderflow } : Eval).operand_stack.values =
      (Eval.start ("call".toList)).operand_stack.values.take k) ∧
    (({ Eval.start ("call".toList) with
        next_operator := 1
        call_stack := [1]
        effect := some Effect.OperandStackUnderflow } : Eval).call_stack =
        (Eval.start ("call".toList)).call_stack ∨
      (((Eval.start ("call".toList)).operators[(Eval.start ("call".toList)).next_operator]? =
          some (.Identifier "call") ∨
        (Eval.start ("call".toList)).operators[(Eval.start ("call".toList)).next_operator]? =
          some (.Identifier "call_either")) ∧
        ({ Eval.start ("call".toList) with
          next_operator := 1
          call_stack := [1]
          effect := some Effect.OperandStackUnderflow } : Eval).call_stack =
          (Eval.start ("call".toList)).call_stack ++
            [(Eval.start ("call".toList)).next_operator + 1])) := by
  have hstep : Eval.step (Eval.start ("call".toList)) =
      some { Eval.start ("call".toList) with
        next_operator := 1
        call_stack := [1]
        effect := some Effect.OperandStackUnderflow } := by decide
  refine ⟨hstep, ?_⟩
  exact c3_error_frame (Eval.start ("call".toList)) _ Effect.OperandStackUnderflow
    (by decide) hstep (by decide) (by decide)

/-- C9: `read`/`write` semantics and the memory frame.  In bounds,
`write (a, v)` stores `v` at `a` and leaves every other cell unchanged,
and a subsequent `read` at `a` pushes exactly the stored value (the
addressed cell of the written memory is `v`); out of bounds, both
operators trigger `InvalidAddress` with the memory intact.  Every step,
of any operator, preserves the memory length. -/
theorem c9_memory :
    (∀ s s' : Eval, Eval.step s = some s' →
      s'.memory.values.length = s.memory.values.length) ∧
    (∀ (s : Eval) (rest : List Value) (av vv : Value),
      s.effect = none →
      s.operators[s.next_operator]? = some (.Identifier "write") →
      s.operand_stack.values = rest ++ [av, vv] →
      av.inner < s.memory.values.length →
      Eval.step s = some { s with
        next_operator := s.next_operator + 1
        operand_stack := ⟨rest⟩
        memory := ⟨s.memory.values.set av.inner vv⟩ } ∧
      (∀ b, b ≠ av.inner →
        (s.memory.values.set av.inner vv)[b]? = s.memory.values[b]?) ∧
      (s.memory.values.set av.inner vv)[av.inner]? = some vv) ∧
    (∀ (s : Eval) (rest : List Value) (av : Value),
      s.effect = none →
      s.operators[s.next_operator]? = some (.Identifier "read") →
      s.operand_stack.values = rest ++ [av] →
      ∀ hlt : av.inner < s.memory.values.length,
      Eval.step s = some { s with
        next_operator := s.next_operator + 1
        operand_stack := ⟨rest ++ [s.memory.values.get ⟨av.inner, hlt⟩]⟩ }) ∧
    (∀ (s : Eval) (rest : List Value) (av : Value),
      s.effect = none →
      s.operators[s.next_operator]? = some (.Identifier "read") →
      s.operand_stack.values = rest ++ [av] →
      s.memory.values.length ≤ av.inner →
      Eval.step s = some { s with
        next_operator := s.next_operator + 1
        operand_stack := ⟨rest⟩
        effect := some Effect.InvalidAddress }) ∧
    (∀ (s : Eval) (rest : List Value) (av vv : Value),
      s.effect = none →
      s.operators[s.next_operator]? = some (.Identifier "write") →
      s.operand_stack.values = rest ++ [av, vv] →
      s.memory.values.length ≤ av.inner →
      Eval.step s = some { s with
        next_operator := s.next_operator + 1
        operand_stack := ⟨rest⟩
        effect := some Effect.InvalidAddress }) := by
  refine ⟨?_, ?_, ?_, ?_, ?_⟩
  · intro s s' hstep
    unfold Eval.step at hstep
    by_cases he : s.effect.isSome
    · rw [if_pos he] at hstep
      injection hstep with h1
      subst h1
      rfl
    · rw [if_neg he] at hstep
      cases hev : evaluate_next_operator s with
      | none => rw [hev] at hstep; exact absurd hstep (by simp)
      | some r =>
        obtain ⟨t, eo⟩ := r
        rw [hev] at hstep
        have hlen := (evaluate_frame s t eo hev).1
        cases eo with
        | none =>
          simp only [Option.some.injEq] at hstep
          subst hstep
          exact hlen
        | some e2 =>
          simp only [Option.some.injEq] at hstep
          subst hstep
          exact hlen
  · intro s rest av vv heff hfetch hstack hlt
    have h1 : Eval.popV { s with next_operator := s.next_operator + 1 } =
        some (vv, { s with
          next_operator := s.next_operator + 1
          operand_stack := ⟨rest ++ [av]⟩ }) := by
      apply Eval.popV_concat
      simpa using hstack
    have h2 : Eval.popV { s with
        next_operator := s.next_operator + 1
        operand_stack := ⟨rest ++ [av]⟩ } =
        some (av, { s with
          next_operator := s.next_operator + 1
          operand_stack := ⟨rest⟩ }) := by
      apply Eval.popV_concat
      rfl
    refine ⟨?_, ?_, ?_⟩
    · have hop : evalOperator (.Identifier "write")
          { s with next_operator := s.next_operator + 1 } =
          some ({ s with
            next_operator := s.next_operator + 1
            operand_stack := ⟨rest⟩
            memory := ⟨s.memory.values.set av.inner vv⟩ }, none) := by
        simp [evalOperator, evalIdentifier, h1, h2, Value.to_usize, hlt]
      exact step_of_evalOperator_ok _ _ _ heff hfetch hop
    · intro b hb
      rw [List.getElem?_set_ne (by omega)]
    · rw [List.getElem?_set_self (by omega)]
  · intro s rest av heff hfetch hstack hlt
    have h1 : Eval.popV { s with next_operator := s.next_operator + 1 } =
        some (av, { s with
          next_operator := s.next_operator + 1
          operand_stack := ⟨rest⟩ }) := Eval.popV_concat _ rest av hstack
    have hget : s.memory.values[av.inner]? =
        some (s.memory.values.get ⟨av.inner, hlt⟩) := by
      rw [List.getElem?_eq_getElem hlt]
      rfl
    have hop : evalOperator (.Identifier "read")
        { s with next_operator := s.next_operator + 1 } =
        some ({ s with
          next_operator := s.next_operator + 1
          operand_stack := ⟨rest ++ [s.memory.values.get ⟨av.inner, hlt⟩]⟩ }, none) := by
      simp [evalOperator, evalIdentifier, h1, Value.to_usize, hget,
        Eval.pushV, OperandStack.push]
    exact step_of_evalOperator_ok _ _ _ heff hfetch hop
  · intro s rest av heff hfetch hstack hge
    have h1 : Eval.popV { s with next_operator := s.next_operator + 1 } =
        some (av, { s with
          next_operator := s.next_operator + 1
          operand_stack := ⟨rest⟩ }) := Eval.popV_concat _ rest av hstack
    have hget : s.memory.values[av.inner]? = none := by
      rw [List.getElem?_eq_none]
      omega
    have hop : evalOperator (.Identifier "read")
        { s with next_operator := s.next_operator + 1 } =
        some ({ s with
          next_operator := s.next_operator + 1
          operand_stack := ⟨rest⟩ }, some Effect.InvalidAddress) := by
      simp [evalOperator, evalIdentifier, h1, Value.to_usize, hget]
    exact step_of_evalOperator_err _ _ _ _ heff hfetch hop
  · intro s rest av vv heff hfetch hstack hge
    have h1 : Eval.popV { s with next_operator := s.next_operator + 1 } =
        some (vv, { s with
          next_operator := s.next_operator + 1
          operand_stack := ⟨rest ++ [av]⟩ }) := by
      apply Eval.popV_concat
      simpa using hstack
    have h2 : Eval.popV { s with
        next_operator := s.next_operator + 1
        operand_stack := ⟨rest ++ [av]⟩ } =
        some (av, { s with
          next_operator := s.next_operator + 1
          operand_stack := ⟨rest⟩ }) := by
      apply Eval.popV_concat
      rfl
    have hop : evalOperator (.Identifier "write")
        { s with next_operator := s.next_operator + 1 } =
        some ({ s with
          next_operator := s.next_operator + 1
          operand_stack := ⟨rest⟩ }, some Effect.InvalidAddress) := by
      simp only [evalOperator, evalIdentifier]
      simp [h1, h2, Value.to_usize]
      omega
    exact step_of_evalOperator_err _ _ _ _ heff hfetch hop

/-- C9 witness: writing 3 to address 1 of a two-cell memory then
reading it back; reading address 2 of the same memory fails. -/
theorem c9_memory_witness :
    Eval.step
      { operators := [.Identifier "write"], labels := [], next_operator := 0,
        call_stack := [], effect := none,
        operand_stack := ⟨[⟨1⟩, ⟨3⟩]⟩, memory := ⟨[⟨0⟩, ⟨0⟩]⟩ } =
    some
      { operators := [.Identifier "write"], labels := [], next_operator := 1,
        call_stack := [], effect := none,
        operand_stack := ⟨[]⟩, memory := ⟨[⟨0⟩, ⟨3⟩]⟩ } ∧
    Eval.step
      { operators := [.Identifier "read"], labels := [], next_operator := 0,
        call_stack := [], effect := none,
        operand_stack := ⟨[⟨1⟩]⟩, memory := ⟨[⟨0⟩, ⟨3⟩]⟩ } =
    some
      { operators := [.Identifier "read"], labels := [], next_operator := 1,
        call_stack := [], effect := none,
        operand_stack := ⟨[⟨3⟩]⟩, memory := ⟨[⟨0⟩, ⟨3⟩]⟩ } ∧
    Eval.step
      { operators := [.Identifier "read"], labels := [], next_operator := 0,
        call_stack := [], effect := none,
        operand_stack := ⟨[⟨2⟩]⟩, memory := ⟨[⟨0⟩, ⟨3⟩]⟩ } =
    some
      { operators := [.Identifier "read"], labels := [], next_operator := 1,
        call_stack := [], effect := some Effect.InvalidAddress,
        operand_stack := ⟨[]⟩, memory := ⟨[⟨0⟩, ⟨3⟩]⟩ } := by
  refine ⟨?_, ?_, ?_⟩
  · have h := ((c9_memory.2.1
      { operators := [.Identifier "write"], labels := [], next_operator := 0,
        call_stack := [], effect := none,
        operand_stack := ⟨[⟨1⟩, ⟨3⟩]⟩, memory := ⟨[⟨0⟩, ⟨0⟩]⟩ }
      [] ⟨1⟩ ⟨3⟩ rfl (by decide) rfl (by decide)).1)
    rw [h]
    decide
  · have h := (c9_memory.2.2.1
      { operators := [.Identifier "read"], labels := [], next_operator := 0,
        call_stack := [], effect := none,
        operand_stack := ⟨[⟨1⟩]⟩, memory := ⟨[⟨0⟩, ⟨3⟩]⟩ }
      [] ⟨1⟩ rfl (by decide) rfl (by decide))
    rw [h]
    decide
  · have h := (c9_memory.2.2.2.1
      { operators := [.Identifier "read"], labels := [], next_operator := 0,
        call_stack := [], effect := none,
        operand_stack := ⟨[⟨2⟩]⟩, memory := ⟨[⟨0⟩, ⟨3⟩]⟩ }
      [] ⟨2⟩ rfl (by decide) rfl (by decide))
    rw [h]

/-! The yield/resume counter script of C1. -/

/-- The C1 example script. -/
def counterScript : List Char := "increment: 1 + yield @increment jump".toList

/-- The C1 evaluation, started with 0 pushed onto the operand stack. -/
def counterStart : Eval := (Eval.start counterScript).pushV ⟨0⟩

/-- The suspension state after the `n`-th yield of the counter script:
the cursor rests on the operator after `yield`, the call stack is
empty, the memory untouched, and the counter on the stack reads
`(n + 1) mod 2^32`. -/
def counterState (n : Nat) : Eval :=
  { operators := [.Integer ⟨1⟩, .Identifier "+", .Identifier "yield",
      .Reference "increment", .Identifier "jump"]
    labels := [⟨"increment", 0⟩]
    next_operator := 3
    call_stack := []
    effect := some Effect.Yield
    operand_stack := ⟨[⟨(n + 1) % 4294967296⟩]⟩
    memory := ⟨List.replicate 1024 ⟨0⟩⟩ }

/-- Run to the first yield, then clear the effect and run again, `n`
times: the host protocol of C1. -/
def counterResumed : Nat → Option Eval
  | 0 => Eval.run 8 counterStart
  | n + 1 => (counterResumed n).bind (fun s => Eval.run 8 s.clear_effect)

theorem value_incr (m : Nat) :
    Value.of_i32 (Value.to_i32 ⟨m % 4294967296⟩ + Value.to_i32 ⟨1⟩) =
      ⟨(m + 1) % 4294967296⟩ := by
  unfold Value.of_i32 Value.to_i32
  simp only [Value.mk.injEq]
  split <;> omega

theorem counter_cycle (n : Nat) :
    Eval.run 8 (Eval.clear_effect (counterState n)) = some (counterState (n + 1)) := by
  have hrfl : Eval.run 8 (Eval.clear_effect (counterState n)) =
      some { counterState (n + 1) with
        operand_stack :=
          ⟨[Value.of_i32 (Value.to_i32 ⟨(n + 1) % 4294967296⟩ + Value.to_i32 ⟨1⟩)]⟩ } := rfl
  rw [hrfl, value_incr]
  rfl

/-- C1: with no active effect, `evaluate_next_operator` advances the
cursor by one before executing the fetched operator's semantics;
consequently a fetched `yield` stores `Effect::Yield` and changes
nothing but the cursor — operand stack, memory and call stack are
untouched — and the counter script, started with 0 on the stack and
resumed with `Yield` cleared between runs, shows `1, 2, 3, …`
(modulo 2^32) on top of the stack at successive suspensions. -/
theorem c1_yield_and_resume :
    (∀ (s : Eval) (op : Operator),
      s.operators[s.next_operator]? = some op →
      evaluate_next_operator s =
        evalOperator op { s with next_operator := s.next_operator + 1 }) ∧
    (∀ s : Eval, s.effect = none →
      s.operators[s.next_operator]? = some (.Identifier "yield") →
      Eval.step s = some { s with
        next_operator := s.next_operator + 1
        effect := some Effect.Yield }) ∧
    (∀ n : Nat, counterResumed n = some (counterState n)) := by
  refine ⟨?_, ?_, ?_⟩
  · intro s op hfetch
    unfold evaluate_next_operator
    rw [hfetch]
  · intro s heff hfetch
    have hop : evalOperator (.Identifier "yield")
        { s with next_operator := s.next_operator + 1 } =
        some ({ s with next_operator := s.next_operator + 1 }, some Effect.Yield) := rfl
    exact step_of_evalOperator_err _ _ _ _ heff hfetch hop
  · intro n
    induction n with
    | zero => rfl
    | succ m ih =>
      show (counterResumed m).bind (fun s => Eval.run 8 s.clear_effect) = _
      rw [ih, Option.some_bind, counter_cycle]

/-- C1 witness: the general conjuncts applied to the concrete script
`yield`, and the counter script observed at its third suspension, where
the top of the stack reads 3. -/
theorem c1_yield_and_resume_witness :
    (evaluate_next_operator (Eval.start ("yield".toList)) =
      evalOperator (.Identifier "yield")
        { Eval.start ("yield".toList) with next_operator := 1 }) ∧
    (Eval.step (Eval.start ("yield".toList)) =
      some { Eval.start ("yield".toList) with
        next_operator := 1
        effect := some Effect.Yield }) ∧
    counterResumed 2 = some (counterState 2) := by
  refine ⟨?_, ?_, c1_yield_and_resume.2.2 2⟩
  · exact c1_yield_and_resume.1 (Eval.start ("yield".toList)) (.Identifier "yield")
      (by decide)
  · exact c1_yield_and_resume.2.1 (Eval.start ("yield".toList)) (by decide) (by decide)

/-! Token classification (C4). -/

/-- The label condition as the claim words it: ends with `:`, non-empty
name before it, no embedded `:` in the name. -/
def c4ClaimLabelCond (token : List Char) : Prop :=
  token.getLast? = some ':' ∧ token.dropLast ≠ [] ∧ ':' ∉ token.dropLast

theorem rsplit_colon_spec (t : List Char) :
    (t.getLast? = some ':' → rsplitOnceChar ':' t = some (t.dropLast, [])) ∧
    (t.getLast? ≠ some ':' →
      ∀ pre suf, rsplitOnceChar ':' t = some (pre, suf) → suf ≠ []) := by
  induction t using List.reverseRecOn with
  | nil =>
    constructor
    · intro h
      simp at h
    · intro _ pre suf h
      simp [rsplitOnceChar, splitOnceChar] at h
  | append_singleton l x _ih =>
    have hrev : (l ++ [x]).reverse = x :: l.reverse := by simp
    by_cases hx : x = ':'
    · subst hx
      constructor
      · intro _
        unfold rsplitOnceChar
        rw [hrev]
        unfold splitOnceChar
        rw [if_pos rfl]
        simp
      · intro h
        exact absurd (by simp) h
    · constructor
      · intro h
        simp at h
        exact absurd h hx
      · intro _ pre suf h
        unfold rsplitOnceChar at h
        rw [hrev] at h
        unfold splitOnceChar at h
        rw [if_neg hx] at h
        cases h2 : splitOnceChar ':' l.reverse with
        | none => rw [h2] at h; simp at h
        | some p =>
          rw [h2] at h
          simp only [Option.some.injEq, Prod.mk.injEq] at h
          obtain ⟨_, hsuf⟩ := h
          subst hsuf
          simp

theorem splitOnceChar_not_head (c : Char) (t : List Char) (h : t.head? ≠ some c) :
    splitOnceChar c t = none ∨
      ∃ x xs suf, splitOnceChar c t = some (x :: xs, suf) := by
  cases t with
  | nil => exact Or.inl rfl
  | cons y ys =>
    have hy : ¬y = c := by simpa using h
    unfold splitOnceChar
    rw [if_neg hy]
    cases h2 : splitOnceChar c ys with
    | none => exact Or.inl rfl
    | some p => exact Or.inr ⟨y, p.1, p.2, rfl⟩

/-- C4 counterexample: the token `:` — which fails the claim's label
condition (its name is empty) and so, per the claim, should have been
appended as an `Identifier` operator — is classified as a label by the
code: compiling the one-token script `:` emits no operator and records
the label `{name: "", target: 0}`. -/
theorem c4_counterexample :
    (∃ name, classifyToken (":".toList) = TokenClass.label name) ∧
    ¬c4ClaimLabelCond (":".toList) ∧
    (Script.compile (":".toList)).operators = [] ∧
    (Script.compile (":".toList)).labels = [⟨"", 0⟩] := by
  refine ⟨⟨"", rfl⟩, ?_, rfl, rfl⟩
  intro hcond
  exact hcond.2.1 (by decide)

/-- C4 amended: a token is classified as a Label — recorded with the
current operator count as target and emitting no Operator — exactly
when it ends with `:`; the recorded name is everything before the final
`:` and may be empty or contain embedded `:`.  A token that is not a
label, not a reference (no leading `@`), and not an integer literal (all
four integer parses fail) is an `Identifier` operator. -/
theorem c4_label_classification :
    (∀ token : List Char,
      (∃ name, classifyToken token = .label name) ↔ token.getLast? = some ':') ∧
    (∀ (token : List Char) (name : String),
      classifyToken token = .label name → name = String.mk token.dropLast) ∧
    (∀ (src : List Char) (a b : Nat) (cs : CompileState) (name : String),
      classifyToken (sliceRange src a b) = .label name →
      parse_token src a b cs = { cs with
        labels := cs.labels ++ [{ name := name, operator := cs.operators.length }] }) ∧
    (∀ token : List Char,
      token.getLast? ≠ some ':' →
      token.head? ≠ some '@' →
      (∀ v, strip0x token = some v →
        from_str_radix_i32 16 hex_digit v = none ∧
        from_str_radix_u32 16 hex_digit v = none) →
      from_str_radix_i32 10 dec_digit token = none →
      from_str_radix_u32 10 dec_digit token = none →
      classifyToken token = .op (.Identifier (String.mk token))) := by
  have hlab : ∀ token : List Char, token.getLast? = some ':' →
      classifyToken token = .label (String.mk token.dropLast) := by
    intro token h
    unfold classifyToken
    rw [(rsplit_colon_spec token).1 h]
  have hnotlab : ∀ (token : List Char) (name : String),
      token.getLast? ≠ some ':' → classifyToken token ≠ .label name := by
    intro token name h hcls
    unfold classifyToken at hcls
    cases hr : rsplitOnceChar ':' token with
    | none =>
      rw [hr] at hcls
      simp at hcls
    | some p =>
      obtain ⟨pre, suf⟩ := p
      have hsuf : suf ≠ [] := (rsplit_colon_spec token).2 h pre suf hr
      rw [hr] at hcls
      cases suf with
      | nil => exact hsuf rfl
      | cons c cs => simp at hcls
  refine ⟨?_, ?_, ?_, ?_⟩
  · intro token
    constructor
    · rintro ⟨name, hname⟩
      by_contra h
      exact hnotlab token name h hname
    · intro h
      exact ⟨String.mk token.dropLast, hlab token h⟩
  · intro token name h
    by_cases hg : token.getLast? = some ':'
    · have := hlab token hg
      rw [h] at this
      simpa using this
    · exact absurd h (hnotlab token name hg)
  · intro src a b cs name h
    unfold parse_token
    rw [h]
  · intro token hg hh hx hd hu
    have htail : classifyTail token = .Identifier (String.mk token) := by
      unfold classifyTail
      rcases splitOnceChar_not_head '@' token hh with hsp | ⟨x, xs, suf2, hsp⟩ <;>
        cases hst : strip0x token
      · simp [hsp, hst, classifyDecimal, hd, hu]
      · rename_i v
        obtain ⟨h16, hu16⟩ := hx v hst
        simp [hsp, hst, h16, hu16, classifyDecimal, hd, hu]
      · simp [hsp, hst, classifyDecimal, hd, hu]
      · rename_i v
        obtain ⟨h16, hu16⟩ := hx v hst
        simp [hsp, hst, h16, hu16, classifyDecimal, hd, hu]
    unfold classifyToken
    cases hr : rsplitOnceChar ':' token with
    | none => simp [htail]
    | some p =>
      obtain ⟨pre, suf⟩ := p
      have hsuf : suf ≠ [] := (rsplit_colon_spec token).2 hg pre suf hr
      cases suf with
      | nil => exact absurd rfl hsuf
      | cons c cs => simp [htail]

/-- C4 witness for the amended classification: `foo:` is a label named
`foo`; compiling it records the label against the current operator
count; `abc` (no trailing `:`, no leading `@`, no integer parse) is an
`Identifier` operator. -/
theorem c4_label_classification_witness :
    ((∃ name, classifyToken ("foo:".toList) = .label name) ↔
      ("foo:".toList).getLast? = some ':') ∧
    ("foo" : String) = String.mk (("foo:".toList).dropLast) ∧
    parse_token ("foo:".toList) 0 4 ⟨[], [], 0, []⟩ =
      { (⟨[], [], 0, []⟩ : CompileState) with
        labels := [{ name := "foo", operator := 0 }] } ∧
    classifyToken ("abc".toList) = .op (.Identifier (String.mk ("abc".toList))) := by
  refine ⟨c4_label_classification.1 ("foo:".toList), ?_, ?_, ?_⟩
  · exact c4_label_classification.2.1 ("foo:".toList) "foo" (by decide)
  · exact c4_label_classification.2.2.1 ("foo:".toList) 0 4 ⟨[], [], 0, []⟩ "foo"
      (by decide)
  · exact c4_label_classification.2.2.2 ("abc".toList) (by decide) (by decide)
      (fun v hv => by simp [strip0x] at hv) (by decide) (by decide)

/-! Source map round trip (C6). -/

/-- The invariant `Script::compile`'s scan maintains: the next source
map key equals the operator count; the source map has an entry exactly
for every existing operator index; and each entry's range is a
well-formed range into the source whose slice classifies to exactly the
operator stored at that index. -/
def SourceMapInv (src : List Char) (cs : CompileState) : Prop :=
  cs.next_index = cs.operators.length ∧
  (∀ j : Nat, (∃ r, lookupIndex j cs.source_map = some r) ↔ j < cs.operators.length) ∧
  (∀ (j : Nat) (op : Operator), cs.operators[j]? = some op →
    ∃ a b, lookupIndex j cs.source_map = some (a, b) ∧ a ≤ b ∧ b ≤ src.length ∧
      classifyToken (sliceRange src a b) = .op op)

theorem lookupIndex_append (k : Nat) (xs ys : List (Nat × Nat × Nat)) :
    lookupIndex k (xs ++ ys) =
      match lookupIndex k xs with
      | some r => some r
      | none => lookupIndex k ys := by
  induction xs with
  | nil => simp [lookupIndex]
  | cons x rest ih =>
    obtain ⟨k', a, b⟩ := x
    by_cases hk : k' = k
    · simp [lookupIndex, hk]
    · simp only [List.cons_append, lookupIndex, if_neg hk]
      exact ih

theorem parse_token_inv (src : List Char) (a b : Nat) (cs : CompileState)
    (ha : a ≤ b) (hb : b ≤ src.length) (h : SourceMapInv src cs) :
    SourceMapInv src (parse_token src a b cs) := by
  obtain ⟨h1, h2, h3⟩ := h
  unfold parse_token
  cases hcls : classifyToken (sliceRange src a b) with
  | label name => exact ⟨h1, h2, h3⟩
  | op operator =>
    show SourceMapInv src { cs with
      operators := cs.operators ++ [operator]
      source_map := cs.source_map ++ [(cs.next_index, a, b)]
      next_index := cs.next_index + 1 }
    refine ⟨?_, ?_, ?_⟩
    · simp [h1]
    · intro j
      rw [lookupIndex_append]
      constructor
      · rintro ⟨r, hr⟩
        cases hl : lookupIndex j cs.source_map with
        | some r2 =>
          have hj := (h2 j).mp ⟨r2, hl⟩
          simp
          omega
        | none =>
          rw [hl] at hr
          simp only [lookupIndex] at hr
          by_cases hj : cs.next_index = j
          · simp
            omega
          · rw [if_neg hj] at hr
            simp [lookupIndex] at hr
      · intro hj
        simp only [List.length_append, List.length_cons, List.length_nil] at hj
        by_cases hlt : j < cs.operators.length
        · obtain ⟨r, hr⟩ := (h2 j).mpr hlt
          rw [hr]
          exact ⟨r, rfl⟩
        · have hj2 : j = cs.operators.length := by omega
          have hl : lookupIndex j cs.source_map = none := by
            cases hl2 : lookupIndex j cs.source_map with
            | none => rfl
            | some r2 => exact absurd ((h2 j).mp ⟨r2, hl2⟩) hlt
          rw [hl]
          simp only [lookupIndex]
          rw [if_pos (by omega : cs.next_index = j)]
          exact ⟨(a, b), rfl⟩
    · intro j op hop
      by_cases hlt : j < cs.operators.length
      · rw [List.getElem?_append, if_pos hlt] at hop
        obtain ⟨a2, b2, hl, ha2, hb2, hc2⟩ := h3 j op hop
        refine ⟨a2, b2, ?_, ha2, hb2, hc2⟩
        rw [lookupIndex_append, hl]
      · have hj : j = cs.operators.length := by
          rcases Nat.lt_trichotomy j cs.operators.length with h | h | h
          · exact absurd h hlt
          · exact h
          · rw [List.getElem?_eq_none (by simp; omega)] at hop
            exact absurd hop (by simp)
        subst hj
        rw [List.getElem?_append, if_neg (by omega)] at hop
        simp only [Nat.sub_self, List.getElem?_cons_zero, Option.some.injEq] at hop
        subst hop
        have hl : lookupIndex cs.operators.length cs.source_map = none := by
          cases hl2 : lookupIndex cs.operators.length cs.source_map with
          | none => rfl
          | some r2 =>
            have := (h2 cs.operators.length).mp ⟨r2, hl2⟩
            omega
        refine ⟨a, b, ?_, ha, hb, hcls⟩
        rw [lookupIndex_append, hl]
        simp only [lookupIndex]
        rw [if_pos h1]

theorem compileAux_inv (src : List Char) :
    ∀ (rest : List Char) (i : Nat) (st : ScanState) (cs : CompileState),
    i + rest.length = src.length →
    (∀ s0, st = .token s0 → s0 ≤ i) →
    SourceMapInv src cs →
    SourceMapInv src (compileAux src rest i st cs) := by
  intro rest
  induction rest with
  | nil =>
    intro i st cs hi hst h
    cases st with
    | initial => exact h
    | comment => exact h
    | token s0 =>
      have hs0 : s0 ≤ i := hst s0 rfl
      simp only [List.length_nil, Nat.add_zero] at hi
      show SourceMapInv src (parse_token src s0 src.length cs)
      exact parse_token_inv src s0 src.length cs (by omega) (by omega) h
  | cons c cr ih =>
    intro i st cs hi hst h
    simp only [List.length_cons] at hi
    cases st with
    | initial =>
      show SourceMapInv src
        (if c = '#' then compileAux src cr (i + 1) .comment cs
        else if c.isWhitespace then compileAux src cr (i + 1) .initial cs
        else compileAux src cr (i + 1) (.token i) cs)
      by_cases hc : c = '#'
      · rw [if_pos hc]
        exact ih (i + 1) .comment cs (by omega) (by intro s0 hs0; cases hs0) h
      · rw [if_neg hc]
        by_cases hw : c.isWhitespace
        · rw [if_pos hw]
          exact ih (i + 1) .initial cs (by omega) (by intro s0 hs0; cases hs0) h
        · rw [if_neg hw]
          exact ih (i + 1) (.token i) cs (by omega)
            (by intro s0 hs0; cases hs0; omega) h
    | comment =>
      show SourceMapInv src
        (if c = '\n' then compileAux src cr (i + 1) .initial cs
        else compileAux src cr (i + 1) .comment cs)
      by_cases hc : c = '\n'
      · rw [if_pos hc]
        exact ih (i + 1) .initial cs (by omega) (by intro s0 hs0; cases hs0) h
      · rw [if_neg hc]
        exact ih (i + 1) .comment cs (by omega) (by intro s0 hs0; cases hs0) h
    | token s0 =>
      have hs0 : s0 ≤ i := hst s0 rfl
      show SourceMapInv src
        (if c.isWhitespace then
          compileAux src cr (i + 1) .initial (parse_token src s0 i cs)
        else compileAux src cr (i + 1) (.token s0) cs)
      by_cases hw : c.isWhitespace
      · rw [if_pos hw]
        exact ih (i + 1) .initial (parse_token src s0 i cs) (by omega)
          (by intro s1 hs1; cases hs1)
          (parse_token_inv src s0 i cs (by omega) (by omega) h)
      · rw [if_neg hw]
        exact ih (i + 1) (.token s0) cs (by omega)
          (by intro s1 hs1; cases hs1; omega) h

theorem compile_inv (src : List Char) :
    (∀ j : Nat, (∃ r, lookupIndex j (Script.compile src).source_map = some r) ↔
      j < (Script.compile src).operators.length) ∧
    (∀ (j : Nat) (op : Operator), (Script.compile src).operators[j]? = some op →
      ∃ a b, lookupIndex j (Script.compile src).source_map = some (a, b) ∧ a ≤ b ∧
        b ≤ src.length ∧ classifyToken (sliceRange src a b) = .op op) := by
  have hbase : SourceMapInv src ⟨[], [], 0, []⟩ := by
    refine ⟨rfl, ?_, ?_⟩
    · intro j
      simp [lookupIndex]
    · intro j op hop
      simp at hop
  have h := compileAux_inv src src 0 .initial ⟨[], [], 0, []⟩ (by omega)
    (by intro s0 hs0; cases hs0) hbase
  obtain ⟨h1, h2, h3⟩ := h
  exact ⟨h2, h3⟩

/-- C6: every `(index, operator)` pair yielded by `Script::operators`
has a source-map entry whose range is within the source and whose slice
classifies to exactly that operator; `map_operator_to_source` succeeds
only for operator indices (labels occupy no operator index and have no
entry); and the concrete round trip of `"0 loop: 1 + @loop jump"`
recovers the token texts `0, 1, +, @loop, jump`. -/
theorem c6_source_map_round_trip :
    (∀ (src : List Char) (j : Nat) (op : Operator),
      (j, op) ∈ (Script.compile src).operatorsWithIndex →
      ∃ a b, (Script.compile src).map_operator_to_source j = some (a, b) ∧
        a ≤ b ∧ b ≤ src.length ∧
        classifyToken (sliceRange src a b) = .op op) ∧
    (∀ (src : List Char) (j : Nat) (r : Nat × Nat),
      (Script.compile src).map_operator_to_source j = some r →
      j < (Script.compile src).operators.length) ∧
    ((Script.compile ("0 loop: 1 + @loop jump".toList)).operatorsWithIndex.map
        (fun p =>
          ((Script.compile ("0 loop: 1 + @loop jump".toList)).map_operator_to_source
              p.1).map
            (fun r => String.mk (sliceRange ("0 loop: 1 + @loop jump".toList) r.1 r.2))) =
      [some "0", some "1", some "+", some "@loop", some "jump"]) := by
  refine ⟨?_, ?_, by decide⟩
  · intro src j op hmem
    have hget : (Script.compile src).operators[j]? = some op := by
      have := List.mk_mem_enum_iff_getElem?.mp hmem
      exact this
    exact (compile_inv src).2 j op hget
  · intro src j r hmap
    exact ((compile_inv src).1 j).mp ⟨r, hmap⟩

/-- C6 witness at the concrete script `"0 loop: 1 + @loop jump"`:
operator 3 maps back to the substring `@loop`, and operator 5 (past the
end) has no source-map entry. -/
theorem c6_source_map_round_trip_witness :
    (∃ a b,
      (Script.compile ("0 loop: 1 + @loop jump".toList)).map_operator_to_source 3 =
        some (a, b) ∧
      a ≤ b ∧ b ≤ ("0 loop: 1 + @loop jump".toList).length ∧
      classifyToken (sliceRange ("0 loop: 1 + @loop jump".toList) a b) =
        .op (.Reference "loop")) ∧
    (Script.compile ("0 loop: 1 + @loop jump".toList)).operators.length = 5 := by
  constructor
  · exact c6_source_map_round_trip.1 ("0 loop: 1 + @loop jump".toList) 3
      (.Reference "loop") (by decide)
  · decide

end StackAssembly
